import Mathlib

/-!
# mtool: snapshot, verify and restore of file modification times

A shallow embedding of `main.go` and the properties of its snapshot loader
(`mustLoadMtool`), manifest scanner (`mustScanGitLsInput`) and per-file
decision procedure (`restoreCallback`).

Conventions of the embedding.

* A Go `string` is the list of its Unicode code points (`GoString`); the
  program only ever splits on the ASCII characters tab and space, so for
  valid UTF-8 text this agrees with Go's byte-level view.
* `uint64` counters are natural numbers reduced modulo `2^64` at every
  addition; `int64` values are integers wrapped by `wrapInt64`.
* Effects are explicit: the two global counters, the `verbose` flag, the
  log of `os.Chtimes` calls and the lines printed on standard error live in
  `Sys`; what the operating system answers is given by `Env`.
* `os.Exit(code)` is the `Except.error` branch of the functions that may
  call it; `Fatal.exitCode` is the code passed.
* A `bufio.Scanner` is the list of tokens its `Scan`/`Text` loop yields,
  followed by the value of `Err()`.
-/

namespace Mtool

deriving instance DecidableEq for Except

/-! ## Strings and library functions -/

/-- A Go string, as the list of its code points. -/
abbrev GoString := List Char

/-- A Go `error` value, identified by its message. -/
abbrev GoError := GoString

/-- The predicate `unicode.IsSpace`: the code points with the Unicode
White_Space property. -/
def isSpace (c : Char) : Bool :=
  let n := c.toNat
  (0x09 ≤ n && n ≤ 0x0D) || n == 0x20 || n == 0x85 || n == 0xA0 || n == 0x1680 ||
  (0x2000 ≤ n && n ≤ 0x200A) || n == 0x2028 || n == 0x2029 || n == 0x202F ||
  n == 0x205F || n == 0x3000

/-- The function `strings.TrimSpace`: drop leading and trailing white space. -/
def TrimSpace (s : GoString) : GoString :=
  ((s.dropWhile isSpace).reverse.dropWhile isSpace).reverse

/-- Split at the first occurrence of `sep` (`strings.Index` followed by the
two slices `s[:m]` and `s[m+1:]`); `none` when `sep` does not occur. -/
def cut (sep : Char) : GoString → Option (GoString × GoString)
  | [] => none
  | c :: cs =>
    if c = sep then some ([], cs)
    else match cut sep cs with
      | none => none
      | some (a, b) => some (c :: a, b)

/-- The function `strings.SplitN(s, sep, n)` for a one-character separator and
`n ≥ 0`: at most `n` substrings, the last one being the unsplit remainder. -/
def SplitN (s : GoString) (sep : Char) : Nat → List GoString
  | 0 => []
  | 1 => [s]
  | n + 2 =>
    match cut sep s with
    | none => [s]
    | some (a, b) => a :: SplitN b sep (n + 1)

/-! ## Integers -/

/-- Two's-complement wrap of an integer into the `int64` range. -/
def wrapInt64 (x : Int) : Int := (x + 2 ^ 63) % 2 ^ 64 - 2 ^ 63

/-- The error kinds of `strconv.NumError`. -/
inductive NumErr where
  | ErrSyntax
  | ErrRange
deriving DecidableEq, Repr

/-- Whether `c` is one of the ten decimal digits. -/
def isDigit (c : Char) : Bool := 48 ≤ c.toNat && c.toNat ≤ 57

/-- The digit loop of `strconv.ParseUint(s, 10, 64)`; `n` is the value read so
far. A character that is no decimal digit is a syntax error; the two overflow
tests are those of the library (`n >= cutoff` before multiplying, the sum
exceeding `maxUint64` after adding). -/
def parseUintLoop : GoString → Nat → Except NumErr Nat
  | [], n => .ok n
  | c :: cs, n =>
    if isDigit c then
      if n ≥ (2 ^ 64 - 1) / 10 + 1 then .error .ErrRange
      else
        let n1 := n * 10 + (c.toNat - 48)
        if n1 > 2 ^ 64 - 1 then .error .ErrRange
        else parseUintLoop cs n1
    else .error .ErrSyntax

/-- The function `strconv.ParseUint(s, 10, 64)`. -/
def ParseUint (s : GoString) : Except NumErr Nat :=
  if s = [] then .error .ErrSyntax else parseUintLoop s 0

/-- The sign test and range test of `strconv.ParseInt(s, 10, 64)` around
`ParseUint`. -/
def parseIntSigned (neg : Bool) (s : GoString) : Except NumErr Int :=
  match ParseUint s with
  | .error .ErrSyntax => .error .ErrSyntax
  | .error .ErrRange => .error .ErrRange
  | .ok un =>
    if !neg && un ≥ 2 ^ 63 then .error .ErrRange
    else if neg && un > 2 ^ 63 then .error .ErrRange
    else .ok (if neg then -(un : Int) else (un : Int))

/-- The function `strconv.ParseInt(s, 10, 64)`. -/
def ParseInt (s : GoString) : Except NumErr Int :=
  match s with
  | [] => .error .ErrSyntax
  | c :: cs =>
    if c = '+' then parseIntSigned false cs
    else if c = '-' then parseIntSigned true cs
    else parseIntSigned false (c :: cs)

/-- The character of a decimal digit `d < 10`. -/
def digitChar (d : Nat) : Char := Char.ofNat (48 + d)

/-- The loop of `strconv.formatBits` in base 10: digits are produced from the
least significant one and prepended to `acc`. `fuel` bounds the number of
iterations. -/
def formatBits : Nat → Nat → GoString → GoString
  | 0, _, acc => acc
  | fuel + 1, u, acc =>
    if u < 10 then digitChar u :: acc
    else formatBits fuel (u / 10) (digitChar (u % 10) :: acc)

/-- Decimal form of a natural number. -/
def FormatUint (u : Nat) : GoString := formatBits (u + 1) u []

/-- The verb `%d` applied to an `int64` (`strconv.FormatInt(n, 10)`). -/
def FormatInt (n : Int) : GoString :=
  if n < 0 then '-' :: FormatUint n.natAbs else FormatUint n.natAbs

/-! ## Time -/

/-- A `time.Time` without monotonic reading: seconds since the Unix epoch and
nanoseconds within that second. -/
structure Time where
  sec : Int
  nsec : Nat
deriving DecidableEq, Repr

/-- The method `Time.UnixNano`: `sec*1e9 + nsec` in `int64` arithmetic. -/
def Time.UnixNano (t : Time) : Int := wrapInt64 (t.sec * 1000000000 + t.nsec)

/-- The function `time.Unix(sec, nsec)` with its normalisation of `nsec` into
`[0, 1e9)`; Go's `/` on integers truncates toward zero. -/
def Unix (sec nsec : Int) : Time :=
  if nsec < 0 ∨ nsec ≥ 1000000000 then
    let n := Int.tdiv nsec 1000000000
    let sec1 := wrapInt64 (sec + n)
    let nsec1 := nsec - n * 1000000000
    if nsec1 < 0 then ⟨wrapInt64 (sec1 - 1), (nsec1 + 1000000000).toNat⟩
    else ⟨sec1, nsec1.toNat⟩
  else ⟨sec, nsec.toNat⟩

/-! ## Snapshot store -/

/-- The struct `entry` of the source. -/
structure entry where
  sha1 : GoString
  mtime : Time
deriving DecidableEq, Repr

/-- A `map[string]*entry`, as an association list with at most one binding
consulted per key. -/
abbrev Store := List (GoString × entry)

/-- The lookup `e, ok := m[fileName]`. -/
def Store.get : Store → GoString → Option entry
  | [], _ => none
  | (k, e) :: rest, fileName => if k = fileName then some e else Store.get rest fileName

/-- The assignment `m[fileName] = e`. -/
def Store.set : Store → GoString → entry → Store
  | [], fileName, e => [(fileName, e)]
  | (k, v) :: rest, fileName, e =>
    if k = fileName then (fileName, e) :: rest else (k, v) :: Store.set rest fileName e

/-! ## Effects -/

/-- One call `os.Chtimes(name, atime, mtime)`. -/
structure ChtimesCall where
  name : GoString
  atime : Time
  mtime : Time
deriving DecidableEq, Repr

/-- The lines the program prints on standard error, by format string. -/
inductive Msg where
  /-- Format `"%s: modified time expected %d but found %d\n"`. -/
  | expectedFound (fileName : GoString) (expected found : Int)
  /-- Format `"%s: changed modified time from %v to %v\n"`. -/
  | changed (fileName : GoString) (old new : Time)
  /-- Format `"mtool: %d/%d files verified successfully\n"`. -/
  | summary (verified total : Nat)
deriving DecidableEq, Repr

/-- The mutable state the program touches: the global counters, the global
`verbose` flag, the filesystem mutation calls made so far and the messages
printed so far. -/
structure Sys where
  totalFiles : Nat
  nonVerifyingFiles : Nat
  verbose : Bool
  mutations : List ChtimesCall
  stderr : List Msg
deriving DecidableEq, Repr

/-- What the operating system answers: the clock read by `time.Now()` and the
result of `os.Chtimes` (`none` is a nil error). Both may depend on what has
happened so far. -/
structure Env where
  Now : Sys → Time
  Chtimes : Sys → GoString → Time → Time → Option GoError

/-- The call `atomic.AddUint64(&x, 1)`. -/
def addUint64 (x d : Nat) : Nat := (x + d) % 2 ^ 64

/-! ## restoreCallback -/

/-- The function `restoreCallback`: the new state and the returned error. -/
def restoreCallback (env : Env) (m : Store) (fileName sha1 : GoString) (mtime : Time)
    (verifyOnly : Bool) (s : Sys) : Sys × Option GoError :=
  match m.get fileName with
  | none => (s, none)
  | some e =>
    if e.sha1 ≠ sha1 then (s, none)
    else
      let expectedMtime := e.mtime
      let s1 := { s with totalFiles := addUint64 s.totalFiles 1 }
      let foundMtime := mtime.UnixNano
      if foundMtime ≠ expectedMtime.UnixNano then
        let s2 := { s1 with nonVerifyingFiles := addUint64 s1.nonVerifyingFiles 1 }
        if verifyOnly then
          if s2.verbose then
            ({ s2 with stderr := s2.stderr ++
                [Msg.expectedFound fileName expectedMtime.UnixNano foundMtime] }, none)
          else (s2, none)
        else
          let now := env.Now s2
          let err := env.Chtimes s2 fileName now expectedMtime
          let s3 := { s2 with mutations := s2.mutations ++ [⟨fileName, now, expectedMtime⟩] }
          if err = none ∧ s3.verbose = true then
            ({ s3 with stderr := s3.stderr ++ [Msg.changed fileName mtime expectedMtime] }, err)
          else (s3, err)
      else (s1, none)

/-! ## Fatal exits -/

/-- The places where the program calls `os.Exit` with a non-zero constant,
with the data printed in the message. -/
inductive Fatal where
  /-- Message `"ERROR: line %d: expected 3 tab-separated fields for
  restore/verify, got %d"`, exit 10. -/
  | fieldCount (lineNo got : Nat)
  /-- Message `"ERROR: %v"` with the error of `strconv.ParseInt` on `text`,
  exit 15. -/
  | parseInt (text : GoString) (e : NumErr)
  /-- Message `"ERROR: line %d: filename collision in mtool snapshot for %q"`,
  exit 10. -/
  | collision (lineNo : Nat) (fileName : GoString)
  /-- Message `"ERROR: %v"` with the error of `scanner.Err()`, exit 15. -/
  | scannerErr (e : GoError)
  /-- Message `"ERROR: line %d: expected 2 tab-separated fields in
  'git ls-files --stage' output"`, exit 10. -/
  | twoFields (lineNo : Nat)
  /-- Message `"ERROR: %v"` with the error of `os.Stat`, exit 15. -/
  | statErr (e : GoError)
  /-- Message `"ERROR: line %d: malformed first field"`, exit 10. -/
  | firstField (lineNo : Nat)
  /-- Message `"ERROR: line %d: %v"` with the error of the callback, exit 20. -/
  | callbackErr (lineNo : Nat) (e : GoError)
deriving DecidableEq, Repr

/-- The argument of `os.Exit` at each fatal exit. -/
def Fatal.exitCode : Fatal → Int
  | .fieldCount _ _ => 10
  | .parseInt _ _ => 15
  | .collision _ _ => 10
  | .scannerErr _ => 15
  | .twoFields _ => 10
  | .statErr _ => 15
  | .firstField _ => 10
  | .callbackErr _ _ => 20

/-- A `bufio.Scanner` with the default line splitter, as the tokens its
`Scan` loop yields and the final value of `Err()`. -/
structure Scanner where
  lines : List GoString
  err : Option GoError
deriving DecidableEq, Repr

/-! ## mustLoadMtool -/

/-- The part of the loop body of `mustLoadMtool` that reads one line: trim,
split on tabs into at most 3 parts, check the count, parse the third part,
build the entry. -/
def parseLine (lineNo : Nat) (text : GoString) : Except Fatal (GoString × entry) :=
  match SplitN (TrimSpace text) '\t' 3 with
  | [fileName, sha1, ts] =>
    match ParseInt ts with
    | .error e => .error (.parseInt ts e)
    | .ok mtime => .ok (fileName, { sha1 := sha1, mtime := Unix 0 mtime })
  | parts => .error (.fieldCount lineNo parts.length)

/-- The loop body of `mustLoadMtool`: read the line, refuse a file name
already in the map, else store the entry. -/
def loadLine (m : Store) (lineNo : Nat) (text : GoString) : Except Fatal Store :=
  match parseLine lineNo text with
  | .error f => .error f
  | .ok (fileName, e) =>
    match m.get fileName with
    | some _ => .error (.collision lineNo fileName)
    | none => .ok (m.set fileName e)

/-- The loop of `mustLoadMtool`; `lineNo` is the number of lines read so far. -/
def loadLoop : List GoString → Nat → Store → Except Fatal Store
  | [], _, m => .ok m
  | text :: rest, lineNo, m =>
    match loadLine m (lineNo + 1) text with
    | .error f => .error f
    | .ok m1 => loadLoop rest (lineNo + 1) m1

/-- The function `mustLoadMtool`: the store, or the fatal exit taken. -/
def mustLoadMtool (scanner : Scanner) : Except Fatal Store :=
  match loadLoop scanner.lines 0 [] with
  | .error f => .error f
  | .ok m =>
    match scanner.err with
    | some e => .error (.scannerErr e)
    | none => .ok m

/-! ## mustScanGitLsInput -/

/-- The type `gitLsCallback`, threading a state `σ` through the call. -/
abbrev gitLsCallback (σ : Type) := Nat → GoString → GoString → Time → σ → σ × Option GoError

/-- The loop body of `mustScanGitLsInput`. `stat` is `os.Stat` followed by
`ModTime()`. The result is the state after the line and the fatal exit taken,
if any. -/
def scanLine {σ : Type} (stat : σ → GoString → Except GoError Time) (fn : gitLsCallback σ)
    (lineNo : Nat) (text : GoString) (s : σ) : σ × Option Fatal :=
  match SplitN (TrimSpace text) '\t' 2 with
  | [first, fileName] =>
    match stat s fileName with
    | .error e => (s, some (.statErr e))
    | .ok mtime =>
      match SplitN first ' ' 3 with
      | [_, sha1, _] =>
        match fn lineNo fileName sha1 mtime s with
        | (s1, some e) => (s1, some (.callbackErr lineNo e))
        | (s1, none) => (s1, none)
      | _ => (s, some (.firstField lineNo))
  | _ => (s, some (.twoFields lineNo))

/-- The loop of `mustScanGitLsInput`; `lineNo` is the number of lines read so
far. -/
def scanLoop {σ : Type} (stat : σ → GoString → Except GoError Time) (fn : gitLsCallback σ) :
    List GoString → Nat → σ → σ × Option Fatal
  | [], _, s => (s, none)
  | text :: rest, lineNo, s =>
    match scanLine stat fn (lineNo + 1) text s with
    | (s1, some f) => (s1, some f)
    | (s1, none) => scanLoop stat fn rest (lineNo + 1) s1

/-- The function `mustScanGitLsInput`: the final state and the fatal exit
taken, if any. -/
def mustScanGitLsInput {σ : Type} (stat : σ → GoString → Except GoError Time)
    (scanner : Scanner) (fn : gitLsCallback σ) (s : σ) : σ × Option Fatal :=
  match scanLoop stat fn scanner.lines 0 s with
  | (s1, some f) => (s1, some f)
  | (s1, none) =>
    match scanner.err with
    | some e => (s1, some (.scannerErr e))
    | none => (s1, none)

/-! ## main -/

/-- The text `fmt.Sprintf("%s\t%s\t%d", fileName, sha1, mtime.UnixNano())`:
the record the create pass prints, before its newline. -/
def formatRecord (fileName sha1 : GoString) (mtime : Time) : GoString :=
  fileName ++ '\t' :: sha1 ++ '\t' :: FormatInt mtime.UnixNano

/-- The conversion `int(x)` of a `uint64` on a platform with 64-bit `int`. -/
def intOfUint64 (x : Nat) : Int := wrapInt64 x

/-- The restore/verify branch of `main`, from the two scanners on: load the
snapshot, scan the manifest running `restoreCallback` on every record, print
the summary when verbose, and exit. Workers are run in dispatch order, each at
the moment it is dispatched; a worker whose `restoreCallback` fails prints the
same message and exits with the same status 20 as the scan does for a failing
callback, so it is modelled as that exit. The result is the final state and
the argument of `os.Exit` (0 when `main` returns). -/
def mainRestoreVerify (env : Env) (stat : Sys → GoString → Except GoError Time)
    (mtoolSrc inputScanner : Scanner) (verify : Bool) (s : Sys) : Sys × Int :=
  match mustLoadMtool mtoolSrc with
  | .error f => (s, f.exitCode)
  | .ok m =>
    match mustScanGitLsInput stat inputScanner
        (fun _ fileName sha1 mtime st => restoreCallback env m fileName sha1 mtime verify st) s with
    | (s1, some f) => (s1, f.exitCode)
    | (s1, none) =>
      let s2 := if s1.verbose then
          { s1 with stderr := s1.stderr ++
              [Msg.summary ((s1.totalFiles + 2 ^ 64 - s1.nonVerifyingFiles) % 2 ^ 64)
                s1.totalFiles] }
        else s1
      if verify then (s2, intOfUint64 s2.nonVerifyingFiles) else (s2, 0)

/-- The status a parent process observes on a POSIX system after
`os.Exit(code)`: the low 8 bits of the code. -/
def posixExitStatus (code : Int) : Int := code % 256

/-- The state at program start: both counters zero, nothing done yet. -/
def Sys.init (verbose : Bool) : Sys :=
  { totalFiles := 0, nonVerifyingFiles := 0, verbose := verbose, mutations := [], stderr := [] }

/-! ## Definitions used to state the properties -/

/-- Value of a string of decimal digits, most significant digit first. -/
def decimalValue (ds : GoString) : Nat := ds.foldl (fun n c => n * 10 + (c.toNat - 48)) 0

/-- The reading of "base-10 signed 64-bit integer" taken from the format
description, independent of the parser: an optional sign, then one or more
decimal digits, denoting a value between `-2^63` and `2^63 - 1`. -/
def decimalInt64 (s : GoString) : Option Int :=
  let neg := s.head? = some '-'
  let ds := if s.head? = some '+' ∨ s.head? = some '-' then s.tail else s
  if ds ≠ [] ∧ ds.all isDigit = true then
    let v : Int := if neg then -(decimalValue ds : Int) else (decimalValue ds : Int)
    if -2 ^ 63 ≤ v ∧ v < 2 ^ 63 then some v else none
  else none

/-- The decimal forms that `%d` prints: a single `0`, or an optional minus sign
followed by digits the first of which is not `0`. -/
def canonicalInt (s : GoString) : Bool :=
  match s with
  | [] => false
  | ['0'] => true
  | '-' :: d :: ds => isDigit d && d != '0' && ds.all isDigit
  | d :: ds => isDigit d && d != '0' && ds.all isDigit

/-- The identity a snapshot line carries for the loader: the first of the
parts it is split into. -/
def identity (text : GoString) : GoString := (SplitN (TrimSpace text) '\t' 3).headD []

/-- A snapshot line is well formed when, once trimmed, it splits into three
tab-separated parts the third of which is a base-10 signed 64-bit integer. -/
def wellFormedLine (text : GoString) : Bool :=
  match SplitN (TrimSpace text) '\t' 3 with
  | [_, _, ts] => (decimalInt64 ts).isSome
  | _ => false

/-- The pair (fileName, sha1) the loop body of `mustScanGitLsInput` extracts
from a manifest line, when both splits give the expected number of parts. -/
def manifestRecord (text : GoString) : Option (GoString × GoString) :=
  match SplitN (TrimSpace text) '\t' 2 with
  | [first, fileName] =>
    match SplitN first ' ' 3 with
    | [_, sha1, _] => some (fileName, sha1)
    | _ => none
  | _ => none

/-- An eligible file whose current mtime differs from the recorded one: the
store has an entry for the file with the same hash and another `UnixNano`. -/
def needsChange (m : Store) (fileName sha1 : GoString) (mtime : Time) : Bool :=
  match m.get fileName with
  | some e => decide (e.sha1 = sha1) && decide (mtime.UnixNano ≠ e.mtime.UnixNano)
  | none => false

/-- Whether a manifest line names an eligible file whose current mtime, as
given by the lookup `stat0`, differs from the recorded one. -/
def lineNeedsChange (m : Store) (stat0 : GoString → Except GoError Time)
    (text : GoString) : Bool :=
  match manifestRecord text with
  | some (fileName, sha1) =>
    match stat0 fileName with
    | .ok mtime => needsChange m fileName sha1 mtime
    | .error _ => false
  | none => false

/-- The number of manifest lines that name an eligible file whose current
mtime differs from the recorded one. -/
def mismatches (m : Store) (stat0 : GoString → Except GoError Time)
    (lines : List GoString) : Nat :=
  (lines.filter (lineNeedsChange m stat0)).length

/-! ## Sample data used to instantiate the theorems -/

/-- The two-letter file names "aa", "ab", ..., "pp", numbered from 0 to 255. -/
def fileNo (i : Nat) : GoString := [Char.ofNat (97 + i / 16), Char.ofNat (97 + i % 16)]

/-- A snapshot of 256 files, each recorded with hash "hash1" and an mtime of
one second after the epoch. -/
def snapshot256 : Scanner :=
  { lines := (List.range 256).map (fun i => fileNo i ++ "\thash1\t1000000000".toList),
    err := none }

/-- The store `mustLoadMtool` builds from `snapshot256`. -/
def store256 : Store :=
  (List.range 256).map
    (fun i => (fileNo i, { sha1 := "hash1".toList, mtime := Unix 0 1000000000 }))

/-- A manifest that lists the same 256 files with the same hash. -/
def manifest256 : Scanner :=
  { lines := (List.range 256).map (fun i => "100644 hash1 0\t".toList ++ fileNo i),
    err := none }

/-- A filesystem on which every file was last modified two seconds after the
epoch. -/
def statTwo : GoString → Except GoError Time := fun _ => .ok (Unix 0 2000000000)

/-- An operating system on which every `os.Chtimes` call succeeds and the
clock stands at the epoch. -/
def envOk : Env := { Now := fun _ => ⟨0, 0⟩, Chtimes := fun _ _ _ _ => none }

/-- An operating system on which every `os.Chtimes` call fails. -/
def envDenied : Env :=
  { Now := fun _ => ⟨0, 0⟩, Chtimes := fun _ _ _ _ => some "operation not permitted".toList }

/-- The store loaded from the one-line snapshot "a.txt", "hash1", 1000000000. -/
def storeA : Store := [("a.txt".toList, { sha1 := "hash1".toList, mtime := Unix 0 1000000000 })]

/-- A callback that only records the arguments of each invocation. -/
def logCallback : gitLsCallback (List (Nat × GoString × GoString × Time)) :=
  fun lineNo fileName sha1 mtime log => (log ++ [(lineNo, fileName, sha1, mtime)], none)

/-- The status lookup on a filesystem that holds exactly the listed files with
the listed modification times. -/
def statIn {σ : Type} (files : List (GoString × Time)) : σ → GoString → Except GoError Time :=
  fun _ name =>
    match files.find? (fun p => p.1 = name) with
    | some p => .ok p.2
    | none => .error "no such file or directory".toList

/-- The triple the loop body of `mustScanGitLsInput` hands to the callback for
a line (file name, hash, mtime of the lookup), or the fatal exit it takes
before reaching the callback. -/
def scanTriple {σ : Type} (stat : σ → GoString → Except GoError Time) (lineNo : Nat)
    (text : GoString) (s : σ) : Except Fatal (GoString × GoString × Time) :=
  match SplitN (TrimSpace text) '\t' 2 with
  | [first, fileName] =>
    match stat s fileName with
    | .error e => .error (.statErr e)
    | .ok mtime =>
      match SplitN first ' ' 3 with
      | [_, sha1, _] => .ok (fileName, sha1, mtime)
      | _ => .error (.firstField lineNo)
  | _ => .error (.twoFields lineNo)

/-- A callback instrumented to record, at each invocation, the line number it
is given and the error it returns. -/
def traced {σ : Type} (fn : gitLsCallback σ) :
    gitLsCallback (σ × List (Nat × Option GoError)) :=
  fun lineNo fileName sha1 mtime st =>
    match fn lineNo fileName sha1 mtime st.1 with
    | (s1, r) => ((s1, st.2 ++ [(lineNo, r)]), r)

/-- The record of `j` invocations for the consecutive lines `k+1 .. k+j`, all
returning nil except the last, which returns `last`. -/
def invocations (k j : Nat) (last : Option GoError) : List (Nat × Option GoError) :=
  (List.range j).map (fun i => (k + 1 + i, if i + 1 = j then last else none))

/-- A callback that records the line numbers it is given and fails at line
`n`. -/
def failAt (n : Nat) : gitLsCallback (List Nat) :=
  fun lineNo _ _ _ log => (log ++ [lineNo], if lineNo = n then some "disk full".toList else none)

/-- What the destination of the create pass answers to a write of `data` when
it already holds `out`: `none` when all of `data` is written and the error is
nil, `some (n, err)` when only the first `n` characters are written and the
error is `err` (the destination is always an `*os.File`, which returns an
error whenever it writes less than it is given). -/
abbrev WriteOracle := GoString → GoString → Option (Nat × GoError)

/-- The callback of the create branch of `main`:
`fmt.Fprintf(dst, "%s\t%s\t%d\n", fileName, sha1, mtime.UnixNano())`, returning
the error of the write. The state is what `dst` holds. -/
def createCallback (write : WriteOracle) : gitLsCallback GoString :=
  fun _ fileName sha1 mtime out =>
    let text := formatRecord fileName sha1 mtime ++ ['\n']
    match write out text with
    | none => (out ++ text, none)
    | some (n, err) => (out ++ text.take n, some err)

/-- The create branch of `main`, from the input scanner and the opened
destination on: what the destination holds at the end, and the argument of
`os.Exit` (0 when `main` returns). -/
def mainCreate (stat : GoString → GoString → Except GoError Time) (write : WriteOracle)
    (inputScanner : Scanner) (out0 : GoString) : GoString × Int :=
  match mustScanGitLsInput stat inputScanner (createCallback write) out0 with
  | (out, some f) => (out, f.exitCode)
  | (out, none) => (out, 0)

/-- A destination that accepts every write. -/
def writeOk : WriteOracle := fun _ _ => none

/-- A triple handed to the callback: file name, hash, current mtime. -/
abbrev Triple := GoString × GoString × Time

/-- An eligible triple: the store has an entry for the file with the same
hash. -/
def eligible (m : Store) (fileName sha1 : GoString) : Bool :=
  match m.get fileName with
  | some e => decide (e.sha1 = sha1)
  | none => false

/-- The state after the workers for `triples` have run `restoreCallback` to
completion one after the other, in the order of the list. -/
def runCallbacks (env : Env) (m : Store) (verifyOnly : Bool) : List Triple → Sys → Sys
  | [], s => s
  | tr :: rest, s =>
    runCallbacks env m verifyOnly rest
      (restoreCallback env m tr.1 tr.2.1 tr.2.2 verifyOnly s).1

/-- The function `restoreCallback` with the map `m` it is given made part of
the state, so that a write to the map would show in the result. The body reads
the map once (`e, ok := m[fileName]`) and neither assigns to it nor deletes
from it (the source notes: "not deleting from map since it is accessed
concurrently"). -/
def restoreCallbackStore (env : Env) (fileName sha1 : GoString) (mtime : Time)
    (verifyOnly : Bool) (st : Store × Sys) : (Store × Sys) × Option GoError :=
  let m := st.1
  let s := st.2
  match m.get fileName with
  | none => ((m, s), none)
  | some e =>
    if e.sha1 ≠ sha1 then ((m, s), none)
    else
      let expectedMtime := e.mtime
      let s1 := { s with totalFiles := addUint64 s.totalFiles 1 }
      let foundMtime := mtime.UnixNano
      if foundMtime ≠ expectedMtime.UnixNano then
        let s2 := { s1 with nonVerifyingFiles := addUint64 s1.nonVerifyingFiles 1 }
        if verifyOnly then
          if s2.verbose then
            ((m, { s2 with stderr := s2.stderr ++
                [Msg.expectedFound fileName expectedMtime.UnixNano foundMtime] }), none)
          else ((m, s2), none)
        else
          let now := env.Now s2
          let err := env.Chtimes s2 fileName now expectedMtime
          let s3 := { s2 with mutations := s2.mutations ++ [⟨fileName, now, expectedMtime⟩] }
          if err = none ∧ s3.verbose = true then
            ((m, { s3 with stderr := s3.stderr ++ [Msg.changed fileName mtime expectedMtime] }),
              err)
          else ((m, s3), err)
      else ((m, s1), none)

/-- One call of `restoreCallback`: the map, the triple and the mode it is
given. -/
structure Call where
  m : Store
  fileName : GoString
  sha1 : GoString
  mtime : Time
  verifyOnly : Bool

/-- The state after a sequence of calls of `restoreCallback`, each run to
completion, in order. -/
def applyCalls (env : Env) : List Call → Sys → Sys
  | [], s => s
  | c :: rest, s =>
    applyCalls env rest (restoreCallback env c.m c.fileName c.sha1 c.mtime c.verifyOnly s).1

/-- A verify call on a.txt with the recorded hash and another mtime than the
recorded one. -/
def callNeedsChange : Call :=
  { m := storeA, fileName := "a.txt".toList, sha1 := "hash1".toList, mtime := Unix 0 5,
    verifyOnly := true }

/-- A verify call on a.txt with the recorded hash and the recorded mtime. -/
def callMatches : Call :=
  { m := storeA, fileName := "a.txt".toList, sha1 := "hash1".toList,
    mtime := Unix 0 1000000000, verifyOnly := true }

/-- A restore call on a.txt with the recorded hash and another mtime than the
recorded one. -/
def callRestore : Call :=
  { m := storeA, fileName := "a.txt".toList, sha1 := "hash1".toList, mtime := Unix 0 5,
    verifyOnly := false }

/-! ## The worker pool of the restore/verify branch -/

/-- Where a worker goroutine of the restore/verify branch stands in its body
`defer func() { wg.Done(); res <- struct{}{} }(); <-res; err := restoreCallback(...)`. -/
inductive Phase where
  /-- Started by `go func()`, not yet past the receive `<-res`. -/
  | blocked
  /-- Past `<-res`, inside `restoreCallback`. -/
  | inFlight
  /-- Back from `restoreCallback` with a nil error, in the deferred function,
  not yet past the send `res <- struct{}{}`. -/
  | returning
  /-- Past the send of the deferred function: the goroutine is over. -/
  | finished
deriving DecidableEq, Repr

/-- The pool: the capacity `K` of the channel `res` (the flag `concurrency`),
the number of values the channel holds, the workers started so far, and whether
a worker has called `os.Exit`. -/
structure Pool where
  K : Nat
  free : Nat
  workers : List Phase
  exited : Bool
deriving DecidableEq, Repr

/-- The pool after `make(chan struct{}, concurrency)` and the loop that sends
`concurrency` values into the channel. -/
def Pool.init (K : Nat) : Pool := { K := K, free := K, workers := [], exited := false }

/-- The steps a run of the pool is made of. -/
inductive Action where
  /-- The callback given to the scan starts a worker (`wg.Add(1); go func()`). -/
  | spawn
  /-- Worker `i` receives from the channel (`<-res`). -/
  | acquire (i : Nat)
  /-- Worker `i` comes back from `restoreCallback`, with a nil error or not. -/
  | finish (i : Nat) (ok : Bool)
  /-- Worker `i` sends into the channel (`res <- struct{}{}`). -/
  | release (i : Nat)
deriving DecidableEq, Repr

/-- One step of the pool; `none` when the step cannot be taken in this state:
a receive needs a value in the channel, a send needs room in it, a worker only
moves on from the phase it is in, and nothing moves after `os.Exit`. -/
def Pool.step (p : Pool) (a : Action) : Option Pool :=
  if p.exited then none
  else
    match a with
    | .spawn => some { p with workers := p.workers ++ [Phase.blocked] }
    | .acquire i =>
      if p.workers[i]? = some Phase.blocked ∧ 0 < p.free then
        some { p with free := p.free - 1, workers := p.workers.set i Phase.inFlight }
      else none
    | .finish i ok =>
      if p.workers[i]? = some Phase.inFlight then
        if ok then some { p with workers := p.workers.set i Phase.returning }
        else some { p with exited := true }
      else none
    | .release i =>
      if p.workers[i]? = some Phase.returning ∧ p.free < p.K then
        some { p with free := p.free + 1, workers := p.workers.set i Phase.finished }
      else none

/-- The pool after a sequence of steps, when all of them can be taken. -/
def Pool.run : Pool → List Action → Option Pool
  | p, [] => some p
  | p, a :: rest =>
    match p.step a with
    | none => none
    | some p1 => Pool.run p1 rest

/-- Whether a worker in this phase is inside `restoreCallback`. -/
def Phase.running : Phase → Bool
  | .inFlight => true
  | _ => false

/-- Whether a worker in this phase has received a value from the channel and
not yet sent one back. -/
def Phase.holds : Phase → Bool
  | .inFlight => true
  | .returning => true
  | _ => false

/-- The number of workers inside `restoreCallback`. -/
def Pool.inFlight (p : Pool) : Nat := p.workers.countP Phase.running

/-- The number of workers that have received a value from the channel and not
yet sent one back: the pool slots held. -/
def Pool.held (p : Pool) : Nat := p.workers.countP Phase.holds

/-! ## A filesystem that stores modification times -/

/-- C1: when the store has an entry for the file with the same hash and a
recorded mtime whose `UnixNano` differs from the current one, restore mode
(verifyOnly = false) appends exactly one `os.Chtimes` call to the log, on that
file and with the recorded mtime as modification time, and returns exactly what
that call returned. -/
theorem restoreCallback_restore_sets_mtime (env : Env) (m : Store) (fileName sha1 : GoString)
    (mtime : Time) (s : Sys) (e : entry)
    (hget : m.get fileName = some e) (hsha : e.sha1 = sha1)
    (hne : e.mtime.UnixNano ≠ mtime.UnixNano) :
    let s2 : Sys := { s with totalFiles := addUint64 s.totalFiles 1,
                             nonVerifyingFiles := addUint64 s.nonVerifyingFiles 1 }
    let r := restoreCallback env m fileName sha1 mtime false s
    r.1.mutations = s.mutations ++ [⟨fileName, env.Now s2, e.mtime⟩] ∧
    r.2 = env.Chtimes s2 fileName (env.Now s2) e.mtime := by
  intro s2 r
  have hne2 : ¬ mtime.UnixNano = e.mtime.UnixNano := fun h => hne h.symm
  simp only [r, s2, restoreCallback, hget, hsha, hne2, ne_eq, not_true_eq_false, if_false,
    not_false_eq_true, if_true, Bool.false_eq_true]
  split <;> simp

/-- Instance of C1 for the snapshot line a.txt/hash1/1000000000 and a current
mtime of 2000000000 ns, once with a succeeding and once with a failing
`os.Chtimes`. -/
theorem restoreCallback_restore_sets_mtime_witness :
    (restoreCallback envOk storeA "a.txt".toList "hash1".toList (Unix 0 2000000000) false
        (Sys.init false)).1.mutations = [⟨"a.txt".toList, ⟨0, 0⟩, Unix 0 1000000000⟩] ∧
    (restoreCallback envOk storeA "a.txt".toList "hash1".toList (Unix 0 2000000000) false
        (Sys.init false)).2 = none ∧
    (restoreCallback envDenied storeA "a.txt".toList "hash1".toList (Unix 0 2000000000) false
        (Sys.init false)).2 = some "operation not permitted".toList := by
  have h1 := restoreCallback_restore_sets_mtime envOk storeA "a.txt".toList "hash1".toList
    (Unix 0 2000000000) (Sys.init false) { sha1 := "hash1".toList, mtime := Unix 0 1000000000 }
    (by decide) (by decide) (by decide)
  have h2 := restoreCallback_restore_sets_mtime envDenied storeA "a.txt".toList "hash1".toList
    (Unix 0 2000000000) (Sys.init false) { sha1 := "hash1".toList, mtime := Unix 0 1000000000 }
    (by decide) (by decide) (by decide)
  exact ⟨h1.1, h1.2, h2.2⟩

/-- In verify mode the callback adds no `os.Chtimes` call to the log and
returns nil. -/
theorem restoreCallback_verify_frame (env : Env) (m : Store) (fileName sha1 : GoString)
    (mtime : Time) (s : Sys) :
    (restoreCallback env m fileName sha1 mtime true s).1.mutations = s.mutations ∧
    (restoreCallback env m fileName sha1 mtime true s).2 = none := by
  unfold restoreCallback
  cases m.get fileName with
  | none => simp
  | some e =>
    simp only [reduceIte]
    split_ifs <;> simp

/-- C3: when the store has no entry for the file, or its entry has another
hash, `restoreCallback` returns nil and leaves the whole state as it was (no
mutation call, both counters unchanged), in both modes. -/
theorem restoreCallback_skip (env : Env) (m : Store) (fileName sha1 : GoString)
    (mtime : Time) (verifyOnly : Bool) (s : Sys)
    (h : m.get fileName = none ∨ ∃ e, m.get fileName = some e ∧ e.sha1 ≠ sha1) :
    restoreCallback env m fileName sha1 mtime verifyOnly s = (s, none) := by
  rcases h with h | ⟨e, he, hsha⟩
  · simp [restoreCallback, h]
  · simp [restoreCallback, he, hsha]

/-- Instance of C3: the manifest reports hash2 for a.txt while the snapshot has
hash1, and a file the snapshot does not know. -/
theorem restoreCallback_skip_witness :
    restoreCallback envOk storeA "a.txt".toList "hash2".toList (Unix 0 2000000000) false
      (Sys.init true) = (Sys.init true, none) ∧
    restoreCallback envOk storeA "b.txt".toList "hash1".toList (Unix 0 2000000000) true
      (Sys.init true) = (Sys.init true, none) :=
  ⟨restoreCallback_skip envOk storeA "a.txt".toList "hash2".toList (Unix 0 2000000000) false
      (Sys.init true)
      (Or.inr ⟨{ sha1 := "hash1".toList, mtime := Unix 0 1000000000 }, by decide, by decide⟩),
   restoreCallback_skip envOk storeA "b.txt".toList "hash1".toList (Unix 0 2000000000) true
      (Sys.init true) (Or.inl (by decide))⟩

/-- C4: for an eligible triple (entry present, hashes equal), in both modes,
`totalFiles` is incremented by one (a `uint64` addition, so exactly `+ 1`
below the maximum); `nonVerifyingFiles` is incremented by one when the two
`UnixNano` values differ, and when they are equal it is unchanged, no mutation
call is made and nil is returned. -/
theorem restoreCallback_eligible_counters (env : Env) (m : Store) (fileName sha1 : GoString)
    (mtime : Time) (verifyOnly : Bool) (s : Sys) (e : entry)
    (hget : m.get fileName = some e) (hsha : e.sha1 = sha1) :
    let r := restoreCallback env m fileName sha1 mtime verifyOnly s
    r.1.totalFiles = (s.totalFiles + 1) % 2 ^ 64 ∧
    (s.totalFiles + 1 < 2 ^ 64 → r.1.totalFiles = s.totalFiles + 1) ∧
    (e.mtime.UnixNano ≠ mtime.UnixNano →
      r.1.nonVerifyingFiles = (s.nonVerifyingFiles + 1) % 2 ^ 64 ∧
      (s.nonVerifyingFiles + 1 < 2 ^ 64 → r.1.nonVerifyingFiles = s.nonVerifyingFiles + 1)) ∧
    (e.mtime.UnixNano = mtime.UnixNano →
      r.1.nonVerifyingFiles = s.nonVerifyingFiles ∧ r.1.mutations = s.mutations ∧
      r.2 = none) := by
  intro r
  have key : r.1.totalFiles = (s.totalFiles + 1) % 2 ^ 64 ∧
      (e.mtime.UnixNano ≠ mtime.UnixNano →
        r.1.nonVerifyingFiles = (s.nonVerifyingFiles + 1) % 2 ^ 64) ∧
      (e.mtime.UnixNano = mtime.UnixNano →
        r.1.nonVerifyingFiles = s.nonVerifyingFiles ∧ r.1.mutations = s.mutations ∧
        r.2 = none) := by
    simp only [r, restoreCallback, hget, hsha, ne_eq, not_true_eq_false, if_false, addUint64]
    by_cases hm : mtime.UnixNano = e.mtime.UnixNano
    · simp [hm]
    · have hm2 : ¬ e.mtime.UnixNano = mtime.UnixNano := fun h => hm h.symm
      simp only [hm, hm2, not_false_eq_true, if_true, false_implies, and_true, true_implies]
      cases verifyOnly
      · simp only [Bool.false_eq_true, if_false]
        split <;> simp
      · simp only [if_true]
        split <;> simp
  refine ⟨key.1, fun hlt => ?_, fun hne => ⟨key.2.1 hne, fun hlt => ?_⟩, key.2.2⟩
  · rw [key.1, Nat.mod_eq_of_lt hlt]
  · rw [key.2.1 hne, Nat.mod_eq_of_lt hlt]

/-- Instance of C4: a.txt with equal hashes, once with differing and once with
equal mtimes, from counters (7, 3). -/
theorem restoreCallback_eligible_counters_witness :
    (restoreCallback envOk storeA "a.txt".toList "hash1".toList (Unix 0 2000000000) true
        { Sys.init false with totalFiles := 7, nonVerifyingFiles := 3 }).1.totalFiles = 8 ∧
    (restoreCallback envOk storeA "a.txt".toList "hash1".toList (Unix 0 2000000000) true
        { Sys.init false with totalFiles := 7, nonVerifyingFiles := 3 }).1.nonVerifyingFiles
      = 4 := by
  have h := restoreCallback_eligible_counters envOk storeA "a.txt".toList "hash1".toList
    (Unix 0 2000000000) true { Sys.init false with totalFiles := 7, nonVerifyingFiles := 3 }
    { sha1 := "hash1".toList, mtime := Unix 0 1000000000 } (by decide) (by decide)
  exact ⟨h.2.1 (by decide), (h.2.2.1 (by decide)).2 (by decide)⟩

/-! ## Integers and time -/

theorem wrapInt64_of_range (x : Int) (h1 : -2 ^ 63 ≤ x) (h2 : x < 2 ^ 63) : wrapInt64 x = x := by
  unfold wrapInt64
  omega

theorem tdiv_billion (x : Int) :
    Int.tdiv x 1000000000 = if 0 ≤ x then x / 1000000000 else -((-x) / 1000000000) := by
  split
  · rename_i h
    exact Int.tdiv_eq_ediv h (by decide)
  · rename_i h
    have hx : 0 ≤ -x := by omega
    have := Int.tdiv_eq_ediv hx (show (0 : Int) ≤ 1000000000 by decide)
    rw [← this, Int.neg_tdiv, neg_neg]

theorem UnixNano_Unix (n : Int) (h1 : -2 ^ 63 ≤ n) (h2 : n < 2 ^ 63) : (Unix 0 n).UnixNano = n := by
  unfold Unix Time.UnixNano
  simp only [tdiv_billion]
  unfold wrapInt64
  split_ifs with ha hb hc hc <;> simp only [] <;> omega

/-- Value read by the digit loop from the accumulator `n`. -/
theorem foldl_digits_ge (ds : GoString) (n : Nat) :
    n ≤ ds.foldl (fun n c => n * 10 + (c.toNat - 48)) n := by
  induction ds generalizing n with
  | nil => simp
  | cons c cs ih =>
    simp only [List.foldl_cons]
    exact le_trans (by omega) (ih _)

theorem parseUintLoop_digits (ds : GoString) (n : Nat) (hn : n < 2 ^ 64)
    (hd : ds.all isDigit = true) :
    parseUintLoop ds n =
      if ds.foldl (fun n c => n * 10 + (c.toNat - 48)) n < 2 ^ 64
      then .ok (ds.foldl (fun n c => n * 10 + (c.toNat - 48)) n) else .error .ErrRange := by
  induction ds generalizing n with
  | nil =>
    have : n < 18446744073709551616 := by omega
    simp [parseUintLoop, this]
  | cons c cs ih =>
    simp only [List.all_cons, Bool.and_eq_true] at hd
    simp only [parseUintLoop, hd.1, if_true, List.foldl_cons]
    have hge := foldl_digits_ge cs (n * 10 + (c.toNat - 48))
    by_cases h1 : n ≥ (2 ^ 64 - 1) / 10 + 1
    · rw [if_pos h1, if_neg (by omega)]
    · rw [if_neg h1]
      by_cases h2 : n * 10 + (c.toNat - 48) > 2 ^ 64 - 1
      · rw [if_pos h2, if_neg (by omega)]
      · rw [if_neg h2]
        exact ih _ (by omega) hd.2

theorem parseUintLoop_nondigit (ds : GoString) (n : Nat) (hd : ¬ ds.all isDigit = true) :
    ∃ e, parseUintLoop ds n = .error e := by
  induction ds generalizing n with
  | nil => simp at hd
  | cons c cs ih =>
    simp only [parseUintLoop]
    by_cases hc : isDigit c = true
    · have hcs : ¬ cs.all isDigit = true := by
        intro h; apply hd; simp [hc, h]
      simp only [hc, if_true]
      split_ifs
      · exact ⟨_, rfl⟩
      · exact ⟨_, rfl⟩
      · exact ih _ hcs
    · simp [hc]

theorem ParseUint_digits (ds : GoString) (hne : ds ≠ []) (hd : ds.all isDigit = true) :
    ParseUint ds = if decimalValue ds < 2 ^ 64 then .ok (decimalValue ds) else .error .ErrRange := by
  unfold ParseUint
  rw [if_neg hne, parseUintLoop_digits ds 0 (by decide) hd]
  rfl

theorem ParseUint_error (ds : GoString) (h : ¬ (ds ≠ [] ∧ ds.all isDigit = true)) :
    ∃ e, ParseUint ds = .error e := by
  unfold ParseUint
  by_cases hne : ds = []
  · exact ⟨_, if_pos hne⟩
  · rw [if_neg hne]
    exact parseUintLoop_nondigit ds 0 (fun hd => h ⟨hne, hd⟩)

theorem parseIntSigned_of_ok (neg : Bool) (ds : GoString) (un : Nat)
    (h : ParseUint ds = .ok un) :
    parseIntSigned neg ds =
      if (neg = false ∧ un ≥ 2 ^ 63) ∨ (neg = true ∧ un > 2 ^ 63) then .error .ErrRange
      else .ok (if neg = true then -(un : Int) else (un : Int)) := by
  unfold parseIntSigned
  rw [h]
  cases neg
  · by_cases hv : un ≥ 2 ^ 63 <;> simp [hv]
  · by_cases hv : un > 2 ^ 63 <;> simp [hv]

theorem parseIntSigned_of_error (neg : Bool) (ds : GoString) (e : NumErr)
    (h : ParseUint ds = .error e) : parseIntSigned neg ds = .error e := by
  unfold parseIntSigned
  rw [h]
  cases e <;> rfl

/-- The integer a sign flag and a magnitude denote. -/
theorem signed_range (neg : Bool) (v : Nat) :
    (-2 ^ 63 ≤ (if neg = true then -(v : Int) else (v : Int)) ∧
      (if neg = true then -(v : Int) else (v : Int)) < 2 ^ 63) ↔
    ¬ ((neg = false ∧ v ≥ 2 ^ 63) ∨ (neg = true ∧ v > 2 ^ 63)) := by
  cases neg
  · simp only [Bool.false_eq_true, if_false, true_and, false_and, or_false]; omega
  · simp only [if_true, true_and, Bool.true_eq_false, false_and, false_or]; omega

/-- The parser of one sign-free digit string agrees with the format's reading. -/
theorem parseIntSigned_spec (neg : Bool) (ds : GoString) :
    match (if ds ≠ [] ∧ ds.all isDigit = true then
        (if -2 ^ 63 ≤ (if neg = true then -(decimalValue ds : Int) else (decimalValue ds : Int)) ∧
            (if neg = true then -(decimalValue ds : Int) else (decimalValue ds : Int)) < 2 ^ 63
         then some (if neg = true then -(decimalValue ds : Int) else (decimalValue ds : Int))
         else none)
      else none) with
    | some n => parseIntSigned neg ds = .ok n
    | none => ∃ e, parseIntSigned neg ds = .error e := by
  by_cases h : ds ≠ [] ∧ ds.all isDigit = true
  · rw [if_pos h]
    have hp := ParseUint_digits ds h.1 h.2
    generalize decimalValue ds = v at hp ⊢
    have hr := signed_range neg v
    by_cases hv : v < 2 ^ 64
    · rw [if_pos hv] at hp
      rw [parseIntSigned_of_ok neg ds v hp]
      by_cases hc : (neg = false ∧ v ≥ 2 ^ 63) ∨ (neg = true ∧ v > 2 ^ 63)
      · rw [if_neg (fun hh => (hr.1 hh) hc), if_pos hc]
        exact ⟨_, rfl⟩
      · rw [if_pos (hr.2 hc), if_neg hc]
    · rw [if_neg hv] at hp
      rw [parseIntSigned_of_error neg ds _ hp]
      have hc : (neg = false ∧ v ≥ 2 ^ 63) ∨ (neg = true ∧ v > 2 ^ 63) := by
        cases neg
        · left; exact ⟨rfl, by omega⟩
        · right; exact ⟨rfl, by omega⟩
      rw [if_neg (fun hh => (hr.1 hh) hc)]
      exact ⟨_, rfl⟩
  · rw [if_neg h]
    obtain ⟨e, he⟩ := ParseUint_error ds h
    exact ⟨e, parseIntSigned_of_error neg ds e he⟩

theorem decimalInt64_cons (c : Char) (cs : GoString) :
    decimalInt64 (c :: cs) =
      if c = '+' then
        (if cs ≠ [] ∧ cs.all isDigit = true then
          (if -2 ^ 63 ≤ (decimalValue cs : Int) ∧ (decimalValue cs : Int) < 2 ^ 63
           then some (decimalValue cs : Int) else none) else none)
      else if c = '-' then
        (if cs ≠ [] ∧ cs.all isDigit = true then
          (if -2 ^ 63 ≤ -(decimalValue cs : Int) ∧ -(decimalValue cs : Int) < 2 ^ 63
           then some (-(decimalValue cs : Int)) else none) else none)
      else
        (if (c :: cs).all isDigit = true then
          (if -2 ^ 63 ≤ (decimalValue (c :: cs) : Int) ∧ (decimalValue (c :: cs) : Int) < 2 ^ 63
           then some (decimalValue (c :: cs) : Int) else none) else none) := by
  unfold decimalInt64
  by_cases hp : c = '+'
  · subst hp
    simp only [List.head?_cons, true_or, if_true, List.tail_cons, Option.some.injEq]
    rw [if_neg (by decide : ¬ '+' = '-')]
  · by_cases hm : c = '-'
    · subst hm
      simp only [List.head?_cons, or_true, if_true, List.tail_cons, if_neg hp]
    · simp only [List.head?_cons, Option.some.injEq, hp, hm, or_self, if_false, ne_eq,
        reduceCtorEq, not_false_eq_true, true_and]

theorem ParseInt_cons (c : Char) (cs : GoString) :
    ParseInt (c :: cs) =
      if c = '+' then parseIntSigned false cs
      else if c = '-' then parseIntSigned true cs
      else parseIntSigned false (c :: cs) := rfl

/-- The parser accepts exactly the strings the format description calls a
base-10 signed 64-bit integer, with the value they denote. -/
theorem ParseInt_spec (s : GoString) :
    match decimalInt64 s with
    | some n => ParseInt s = .ok n
    | none => ∃ e, ParseInt s = .error e := by
  cases s with
  | nil => exact ⟨_, rfl⟩
  | cons c cs =>
    rw [decimalInt64_cons, ParseInt_cons]
    by_cases hp : c = '+'
    · rw [if_pos hp, if_pos hp]
      have := parseIntSigned_spec false cs
      simpa only [Bool.false_eq_true, if_false] using this
    · rw [if_neg hp, if_neg hp]
      by_cases hm : c = '-'
      · rw [if_pos hm, if_pos hm]
        have := parseIntSigned_spec true cs
        simpa only [if_true] using this
      · rw [if_neg hm, if_neg hm]
        have := parseIntSigned_spec false (c :: cs)
        simpa only [Bool.false_eq_true, if_false, ne_eq, reduceCtorEq, not_false_eq_true,
          true_and] using this

theorem ParseInt_ok_iff (s : GoString) (n : Int) :
    ParseInt s = .ok n ↔ decimalInt64 s = some n := by
  have h := ParseInt_spec s
  cases hd : decimalInt64 s with
  | none =>
    rw [hd] at h
    obtain ⟨e, he⟩ := h
    simp [he]
  | some v =>
    rw [hd] at h
    simp only [] at h
    rw [h]
    constructor
    · intro hh; cases hh; rfl
    · intro hh; cases hh; rfl

theorem decimalInt64_range (s : GoString) (n : Int) (h : decimalInt64 s = some n) :
    -2 ^ 63 ≤ n ∧ n < 2 ^ 63 := by
  cases s with
  | nil => simp [decimalInt64] at h
  | cons c cs =>
    rw [decimalInt64_cons] at h
    split_ifs at h <;> (cases h; assumption)

/-! ## Decimal printing -/

theorem formatBits_eq (u : Nat) : ∀ fuel acc, u < fuel →
    formatBits fuel u acc = formatBits (u + 1) u [] ++ acc := by
  induction u using Nat.strong_induction_on with
  | _ u ih =>
    intro fuel acc hlt
    obtain ⟨f, rfl⟩ : ∃ f, fuel = f + 1 := ⟨fuel - 1, by omega⟩
    by_cases h10 : u < 10
    · simp [formatBits, h10]
    · have hdiv : u / 10 < u := Nat.div_lt_self (by omega) (by decide)
      simp only [formatBits, h10, if_false]
      rw [ih (u / 10) hdiv f _ (by omega), ih (u / 10) hdiv u _ hdiv]
      simp

theorem FormatUint_lt (u : Nat) (h : u < 10) : FormatUint u = [digitChar u] := by
  simp [FormatUint, formatBits, h]

theorem FormatUint_step (u : Nat) (h : 10 ≤ u) :
    FormatUint u = FormatUint (u / 10) ++ [digitChar (u % 10)] := by
  have hdiv : u / 10 < u := Nat.div_lt_self (by omega) (by decide)
  have h1 : formatBits (u + 1) u [] = formatBits u (u / 10) [digitChar (u % 10)] := by
    simp only [formatBits, show ¬ u < 10 by omega, if_false]
  rw [FormatUint, h1, formatBits_eq (u / 10) u _ hdiv]
  rfl

theorem digitChar_toNat (c : Char) (h : isDigit c = true) : digitChar (c.toNat - 48) = c := by
  simp only [isDigit, Bool.and_eq_true, decide_eq_true_eq] at h
  unfold digitChar
  rw [show 48 + (c.toNat - 48) = c.toNat by omega]
  exact Char.ofNat_toNat c

theorem digit_lt (c : Char) (h : isDigit c = true) : c.toNat - 48 < 10 := by
  simp only [isDigit, Bool.and_eq_true, decide_eq_true_eq] at h
  omega

theorem decimalValue_append (ds : GoString) (c : Char) :
    decimalValue (ds ++ [c]) = decimalValue ds * 10 + (c.toNat - 48) := by
  simp [decimalValue, List.foldl_append]

/-- Printing the value of a digit string without leading zero gives the string
back. -/
theorem FormatUint_decimalValue (d : Char) (ds : GoString) (hd : isDigit d = true)
    (h0 : d ≠ '0') (hds : ds.all isDigit = true) :
    0 < decimalValue (d :: ds) ∧ FormatUint (decimalValue (d :: ds)) = d :: ds := by
  induction ds using List.reverseRecOn with
  | nil =>
    have hlt := digit_lt d hd
    have hpos : 0 < d.toNat - 48 := by
      simp only [isDigit, Bool.and_eq_true, decide_eq_true_eq] at hd
      have : d.toNat ≠ 48 := fun h => h0 (by
        have := Char.ofNat_toNat d
        rw [h] at this
        exact this.symm)
      omega
    have hv : decimalValue [d] = d.toNat - 48 := by simp [decimalValue]
    rw [hv]
    exact ⟨hpos, by rw [FormatUint_lt _ hlt, digitChar_toNat d hd]⟩
  | append_singleton cs c ih =>
    simp only [List.all_append, List.all_cons, List.all_nil, Bool.and_true,
      Bool.and_eq_true] at hds
    obtain ⟨hpos, hfmt⟩ := ih hds.1
    have hc := digit_lt c hds.2
    have hv : decimalValue (d :: (cs ++ [c])) = decimalValue (d :: cs) * 10 + (c.toNat - 48) := by
      rw [← List.cons_append, decimalValue_append]
    rw [hv]
    refine ⟨by omega, ?_⟩
    rw [FormatUint_step _ (by omega)]
    rw [show (decimalValue (d :: cs) * 10 + (c.toNat - 48)) / 10 = decimalValue (d :: cs) by omega]
    rw [show (decimalValue (d :: cs) * 10 + (c.toNat - 48)) % 10 = c.toNat - 48 by omega]
    rw [hfmt, digitChar_toNat c hds.2]
    simp

theorem canonicalInt_cases (s : GoString) (h : canonicalInt s = true) :
    s = ['0'] ∨ ∃ d ds, (s = d :: ds ∨ s = '-' :: d :: ds) ∧ isDigit d = true ∧ d ≠ '0' ∧
      ds.all isDigit = true := by
  unfold canonicalInt at h
  split at h
  · cases h
  · left; rfl
  · right
    simp only [Bool.and_eq_true, bne_iff_ne, ne_eq] at h
    exact ⟨_, _, Or.inr rfl, h.1.1, h.1.2, h.2⟩
  · right
    simp only [Bool.and_eq_true, bne_iff_ne, ne_eq] at h
    exact ⟨_, _, Or.inl rfl, h.1.1, h.1.2, h.2⟩

theorem isDigit_ne_sign (d : Char) (h : isDigit d = true) : d ≠ '+' ∧ d ≠ '-' := by
  constructor <;> (intro hd; subst hd; revert h; decide)

/-- Printing what the parser read from a canonical decimal gives the decimal
back. -/
theorem FormatInt_ParseInt (s : GoString) (n : Int) (hc : canonicalInt s = true)
    (hp : ParseInt s = .ok n) : FormatInt n = s := by
  rw [ParseInt_ok_iff] at hp
  rcases canonicalInt_cases s hc with rfl | ⟨d, ds, hs, hd, h0, hds⟩
  · have : decimalInt64 ['0'] = some 0 := by decide
    rw [this] at hp
    cases hp
    decide
  · obtain ⟨hpos, hfmt⟩ := FormatUint_decimalValue d ds hd h0 hds
    have hall : (d :: ds).all isDigit = true := by simp [hd, hds]
    rcases hs with rfl | rfl
    · rw [decimalInt64_cons, if_neg (isDigit_ne_sign d hd).1, if_neg (isDigit_ne_sign d hd).2,
        if_pos hall] at hp
      split_ifs at hp
      cases hp
      unfold FormatInt
      rw [if_neg (by omega), Int.natAbs_ofNat, hfmt]
    · rw [decimalInt64_cons, if_neg (by decide), if_pos rfl,
        if_pos ⟨List.cons_ne_nil _ _, hall⟩] at hp
      split_ifs at hp
      cases hp
      unfold FormatInt
      rw [if_pos (by omega), Int.natAbs_neg, Int.natAbs_ofNat, hfmt]

/-! ## Splitting -/

theorem cut_eq_none (sep : Char) (s : GoString) : cut sep s = none ↔ sep ∉ s := by
  induction s with
  | nil => simp [cut]
  | cons c cs ih =>
    unfold cut
    by_cases h : c = sep
    · simp [h]
    · rw [if_neg h]
      cases hc : cut sep cs with
      | none =>
        have := ih.1 hc
        simp [this, Ne.symm h]
      | some p =>
        have : ¬ sep ∉ cs := fun hh => by rw [ih.2 hh] at hc; cases hc
        simp only [List.mem_cons, not_or, reduceCtorEq, false_iff, not_and]
        intro _; exact this

theorem cut_eq_some (sep : Char) (s a b : GoString) :
    cut sep s = some (a, b) ↔ s = a ++ sep :: b ∧ sep ∉ a := by
  induction s generalizing a with
  | nil => simp [cut]
  | cons c cs ih =>
    unfold cut
    by_cases h : c = sep
    · subst h
      rw [if_pos rfl]
      constructor
      · intro hh; cases hh; simp
      · rintro ⟨h1, h2⟩
        cases a with
        | nil => simp at h1; rw [h1]
        | cons x xs =>
          simp only [List.cons_append, List.cons.injEq] at h1
          exact absurd (by rw [h1.1]; simp) h2
    · rw [if_neg h]
      cases hc : cut sep cs with
      | none =>
        simp only [reduceCtorEq, false_iff, not_and, not_not]
        intro h1
        have hmem : sep ∉ cs := (cut_eq_none sep cs).1 hc
        cases a with
        | nil => simp at h1; exact absurd h1.1 h
        | cons x xs =>
          simp only [List.cons_append, List.cons.injEq] at h1
          exact absurd (by rw [h1.2]; simp) hmem
      | some p =>
        obtain ⟨a1, b1⟩ := p
        have hi := (ih a1).1
        simp only [Option.some.injEq, Prod.mk.injEq]
        constructor
        · rintro ⟨rfl, rfl⟩
          obtain ⟨h1, h2⟩ := (ih a1).1 (by rw [hc])
          refine ⟨by rw [h1]; simp, ?_⟩
          simp only [List.mem_cons, not_or]
          exact ⟨Ne.symm h, h2⟩
        · rintro ⟨h1, h2⟩
          cases a with
          | nil => simp at h1; exact absurd h1.1 h
          | cons x xs =>
            simp only [List.cons_append, List.cons.injEq] at h1
            simp only [List.mem_cons, not_or] at h2
            have := (ih xs).2 ⟨h1.2, h2.2⟩
            rw [hc] at this
            simp only [Option.some.injEq, Prod.mk.injEq] at this
            exact ⟨by rw [h1.1, this.1], this.2⟩

theorem SplitN_three (s : GoString) (sep : Char) (a b c : GoString) :
    SplitN s sep 3 = [a, b, c] ↔ s = a ++ sep :: (b ++ sep :: c) ∧ sep ∉ a ∧ sep ∉ b := by
  simp only [SplitN]
  cases h1 : cut sep s with
  | none =>
    simp only [List.cons.injEq, reduceCtorEq, and_false, false_iff, not_and]
    intro hs ha
    have := (cut_eq_none sep s).1 h1
    rw [hs] at this
    simp at this
  | some p =>
    obtain ⟨a1, r1⟩ := p
    obtain ⟨hs1, ha1⟩ := (cut_eq_some sep s a1 r1).1 h1
    simp only []
    cases h2 : cut sep r1 with
    | none =>
      simp only [List.cons.injEq, reduceCtorEq, and_false, false_iff, not_and]
      intro hs ha hb
      have h3 := (cut_eq_some sep s a (b ++ sep :: c)).2 ⟨hs, ha⟩
      rw [h1] at h3
      simp only [Option.some.injEq, Prod.mk.injEq] at h3
      have := (cut_eq_none sep r1).1 h2
      rw [h3.2] at this
      simp at this
    | some q =>
      obtain ⟨b1, c1⟩ := q
      obtain ⟨hs2, hb1⟩ := (cut_eq_some sep r1 b1 c1).1 h2
      simp only [List.cons.injEq, and_true]
      constructor
      · rintro ⟨rfl, rfl, rfl⟩
        exact ⟨by rw [hs1, hs2], ha1, hb1⟩
      · rintro ⟨hs, ha, hb⟩
        have h3 := (cut_eq_some sep s a (b ++ sep :: c)).2 ⟨hs, ha⟩
        rw [h1] at h3
        simp only [Option.some.injEq, Prod.mk.injEq] at h3
        have h4 := (cut_eq_some sep r1 b c).2 ⟨by rw [h3.2], hb⟩
        rw [h2] at h4
        simp only [Option.some.injEq, Prod.mk.injEq] at h4
        exact ⟨h3.1, h4.1, h4.2⟩

theorem SplitN_two (s : GoString) (sep : Char) (a b : GoString) :
    SplitN s sep 2 = [a, b] ↔ s = a ++ sep :: b ∧ sep ∉ a := by
  simp only [SplitN]
  cases h1 : cut sep s with
  | none =>
    simp only [List.cons.injEq, reduceCtorEq, and_false, false_iff, not_and]
    intro hs ha
    have := (cut_eq_none sep s).1 h1
    rw [hs] at this
    simp at this
  | some p =>
    obtain ⟨a1, r1⟩ := p
    simp only [List.cons.injEq, and_true]
    rw [← cut_eq_some, h1]
    simp

/-! ## Reading one snapshot line -/

theorem parseLine_of_three (lineNo : Nat) (text f h ts : GoString)
    (hs : SplitN (TrimSpace text) '\t' 3 = [f, h, ts]) :
    parseLine lineNo text =
      match ParseInt ts with
      | .error e => .error (.parseInt ts e)
      | .ok n => .ok (f, { sha1 := h, mtime := Unix 0 n }) := by
  unfold parseLine
  rw [hs]

theorem parseLine_of_not_three (lineNo : Nat) (text : GoString)
    (hs : (SplitN (TrimSpace text) '\t' 3).length ≠ 3) :
    parseLine lineNo text = .error (.fieldCount lineNo (SplitN (TrimSpace text) '\t' 3).length) := by
  unfold parseLine
  split
  · rename_i heq
    rw [heq] at hs
    exact absurd rfl hs
  · rfl

theorem parseLine_ok_inv (lineNo : Nat) (text f : GoString) (e : entry)
    (hp : parseLine lineNo text = .ok (f, e)) :
    ∃ ts n, SplitN (TrimSpace text) '\t' 3 = [f, e.sha1, ts] ∧ ParseInt ts = .ok n ∧
      e.mtime = Unix 0 n := by
  unfold parseLine at hp
  split at hp
  · rename_i f1 h1 ts heq
    cases hpi : ParseInt ts with
    | error err => rw [hpi] at hp; cases hp
    | ok n =>
      rw [hpi] at hp
      simp only [Except.ok.injEq, Prod.mk.injEq] at hp
      obtain ⟨rfl, rfl⟩ := hp
      exact ⟨ts, n, heq, hpi, rfl⟩
  · cases hp

/-- Whether a line is read successfully does not depend on its number. -/
theorem parseLine_ok_lineNo (k1 k2 : Nat) (text : GoString) (r : GoString × entry)
    (hp : parseLine k1 text = .ok r) : parseLine k2 text = .ok r := by
  obtain ⟨f, e⟩ := r
  obtain ⟨ts, n, hs, hpi, hm⟩ := parseLine_ok_inv k1 text f e hp
  rw [parseLine_of_three k2 text f e.sha1 ts hs, hpi]
  simp only [Except.ok.injEq, Prod.mk.injEq, true_and]
  cases e
  simp only [entry.mk.injEq, true_and]
  exact hm.symm

theorem parseLine_identity (k : Nat) (text f : GoString) (e : entry)
    (hp : parseLine k text = .ok (f, e)) : identity text = f := by
  obtain ⟨ts, n, hs, _, _⟩ := parseLine_ok_inv k text f e hp
  unfold identity
  rw [hs]
  rfl

/-! ## Snapshot format round trip -/

/-- Counterexample to C6 as stated: the loader accepts the lines
"a.txt<TAB>hash1<TAB>+5", "a.txt<TAB>hash1<TAB>007" and " a.txt<TAB>hash1<TAB>5"
(a file name starting with a blank), but writing the entries it builds gives
"a.txt<TAB>hash1<TAB>5", "a.txt<TAB>hash1<TAB>7" and "a.txt<TAB>hash1<TAB>5", none of
which is the line read. -/
theorem snapshot_roundtrip_counterexample :
    (parseLine 1 "a.txt\thash1\t+5".toList
        = .ok ("a.txt".toList, { sha1 := "hash1".toList, mtime := Unix 0 5 }) ∧
      formatRecord "a.txt".toList "hash1".toList (Unix 0 5) = "a.txt\thash1\t5".toList ∧
      "a.txt\thash1\t5".toList ≠ "a.txt\thash1\t+5".toList) ∧
    (parseLine 1 "a.txt\thash1\t007".toList
        = .ok ("a.txt".toList, { sha1 := "hash1".toList, mtime := Unix 0 7 }) ∧
      formatRecord "a.txt".toList "hash1".toList (Unix 0 7) = "a.txt\thash1\t7".toList ∧
      "a.txt\thash1\t7".toList ≠ "a.txt\thash1\t007".toList) ∧
    (parseLine 1 " a.txt\thash1\t5".toList
        = .ok ("a.txt".toList, { sha1 := "hash1".toList, mtime := Unix 0 5 }) ∧
      formatRecord "a.txt".toList "hash1".toList (Unix 0 5) = "a.txt\thash1\t5".toList ∧
      "a.txt\thash1\t5".toList ≠ " a.txt\thash1\t5".toList) := by
  decide

/-- C6 (amended): a line the loader accepts, that has no leading or trailing
white space and whose third field is a canonical decimal (as `%d` prints it:
no plus sign, no leading zero, no negative zero), is reproduced exactly by
writing the entry read from it in the format "%s<TAB>%s<TAB>%d". -/
theorem snapshot_roundtrip (lineNo : Nat) (text fileName : GoString) (e : entry)
    (hparse : parseLine lineNo text = .ok (fileName, e))
    (htrim : TrimSpace text = text)
    (hcanon : ∃ a b ts, SplitN text '\t' 3 = [a, b, ts] ∧ canonicalInt ts = true) :
    formatRecord fileName e.sha1 e.mtime = text := by
  obtain ⟨ts, n, hs, hpi, hm⟩ := parseLine_ok_inv lineNo text fileName e hparse
  obtain ⟨a, b, ts1, hs1, hc⟩ := hcanon
  rw [htrim, hs1] at hs
  simp only [List.cons.injEq, and_true] at hs
  obtain ⟨rfl, rfl, rfl⟩ := hs
  obtain ⟨htext, _, _⟩ := (SplitN_three text '\t' a e.sha1 ts1).1 hs1
  have hr := decimalInt64_range ts1 n ((ParseInt_ok_iff ts1 n).1 hpi)
  unfold formatRecord
  rw [hm, UnixNano_Unix n hr.1 hr.2, FormatInt_ParseInt ts1 n hc hpi, htext]
  simp

/-- Instance of C6 (amended) for the line "a.txt<TAB>hash1<TAB>1000000000". -/
theorem snapshot_roundtrip_witness :
    parseLine 1 "a.txt\thash1\t1000000000".toList
      = .ok ("a.txt".toList, { sha1 := "hash1".toList, mtime := Unix 0 1000000000 }) ∧
    formatRecord "a.txt".toList "hash1".toList (Unix 0 1000000000)
      = "a.txt\thash1\t1000000000".toList :=
  ⟨by decide,
   snapshot_roundtrip 1 "a.txt\thash1\t1000000000".toList "a.txt".toList
     { sha1 := "hash1".toList, mtime := Unix 0 1000000000 } (by decide) (by decide)
     ⟨"a.txt".toList, "hash1".toList, "1000000000".toList, by decide, by decide⟩⟩

/-! ## The store and the loading loop -/

theorem Store.get_set (m : Store) (f g : GoString) (e : entry) :
    (m.set f e).get g = if f = g then some e else m.get g := by
  induction m with
  | nil => simp [Store.set, Store.get]
  | cons p rest ih =>
    obtain ⟨k, v⟩ := p
    by_cases hk : k = f
    · subst hk
      simp only [Store.set, if_true, Store.get]
      by_cases hg : k = g <;> simp [hg]
    · simp only [Store.set, if_neg hk, Store.get, ih]
      by_cases hg : k = g
      · subst hg
        simp [Ne.symm hk, hk]
      · simp [hg]

theorem loadLine_of_ok (m : Store) (k : Nat) (text f : GoString) (e : entry)
    (hp : parseLine k text = .ok (f, e)) :
    loadLine m k text =
      match m.get f with
      | some _ => .error (.collision k f)
      | none => .ok (m.set f e) := by
  unfold loadLine
  rw [hp]

theorem loadLine_of_error (m : Store) (k : Nat) (text : GoString) (x : Fatal)
    (hp : parseLine k text = .error x) : loadLine m k text = .error x := by
  unfold loadLine
  rw [hp]

/-- Loading a prefix of well-formed lines with pairwise distinct identities
succeeds, and leaves a store that knows exactly the identities read. -/
theorem loadLoop_prefix (pre : List GoString) : ∀ (k : Nat) (m0 : Store),
    (∀ text ∈ pre, ∃ r, parseLine 0 text = .ok r) → (pre.map identity).Nodup →
    (∀ text ∈ pre, m0.get (identity text) = none) →
    ∃ m : Store, (∀ name, m.get name = none ↔ (m0.get name = none ∧ name ∉ pre.map identity)) ∧
      ∀ tail, loadLoop (pre ++ tail) k m0 = loadLoop tail (k + pre.length) m := by
  induction pre with
  | nil =>
    intro k m0 _ _ _
    exact ⟨m0, by simp, by simp⟩
  | cons text pre ih =>
    intro k m0 hwf hnd hfresh
    obtain ⟨⟨f, e⟩, hp⟩ := hwf text (List.mem_cons_self _ _)
    have hp1 := parseLine_ok_lineNo 0 (k + 1) text (f, e) hp
    have hid := parseLine_identity 0 text f e hp
    have hget : m0.get f = none := by rw [← hid]; exact hfresh text (List.mem_cons_self _ _)
    have hll : loadLine m0 (k + 1) text = .ok (m0.set f e) := by
      rw [loadLine_of_ok m0 (k + 1) text f e hp1, hget]
    simp only [List.map_cons, List.nodup_cons] at hnd
    obtain ⟨m, hm, htail⟩ := ih (k + 1) (m0.set f e)
      (fun t ht => hwf t (List.mem_cons_of_mem _ ht)) hnd.2
      (fun t ht => by
        rw [Store.get_set, if_neg, hfresh t (List.mem_cons_of_mem _ ht)]
        intro heq
        apply hnd.1
        rw [hid, heq]
        exact List.mem_map_of_mem _ ht)
    refine ⟨m, fun name => ?_, fun tail => ?_⟩
    · rw [hm name, Store.get_set]
      simp only [List.map_cons, List.mem_cons, not_or, hid]
      by_cases hfn : f = name
      · subst hfn
        simp
      · simp only [if_neg hfn]
        constructor
        · rintro ⟨h1, h2⟩; exact ⟨h1, fun h => hfn h.symm, h2⟩
        · rintro ⟨h1, _, h2⟩; exact ⟨h1, h2⟩
    · have h1 : loadLoop (text :: pre ++ tail) k m0 = loadLoop (pre ++ tail) (k + 1) (m0.set f e) := by
        simp only [List.cons_append, loadLoop, hll]
        rfl
      rw [h1, htail tail, List.length_cons]
      congr 1
      omega

/-- The loader reaches the line after a well-formed prefix with a store that
knows exactly the identities of the prefix; if the loop body fails there, that
failure is the result of the load. -/
theorem mustLoadMtool_fails_at (pre rest : List GoString) (text : GoString)
    (err : Option GoError)
    (hwf : ∀ t ∈ pre, ∃ r, parseLine 0 t = .ok r) (hnd : (pre.map identity).Nodup) :
    ∃ m : Store, (∀ name, m.get name = none ↔ name ∉ pre.map identity) ∧
      ∀ x, loadLine m (pre.length + 1) text = .error x →
        mustLoadMtool { lines := pre ++ text :: rest, err := err } = .error x := by
  obtain ⟨m, hm, htail⟩ := loadLoop_prefix pre 0 [] hwf hnd (fun _ _ => rfl)
  refine ⟨m, fun name => by rw [hm name]; simp [Store.get], fun x hx => ?_⟩
  unfold mustLoadMtool
  simp only []
  rw [htail (text :: rest)]
  simp only [loadLoop, Nat.zero_add, hx]

theorem wellFormedLine_iff (text : GoString) :
    wellFormedLine text = true ↔ ∃ r, parseLine 0 text = .ok r := by
  constructor
  · intro h
    unfold wellFormedLine at h
    split at h
    · rename_i f hh ts heq
      cases hd : decimalInt64 ts with
      | none => rw [hd] at h; cases h
      | some n =>
        refine ⟨(f, { sha1 := hh, mtime := Unix 0 n }), ?_⟩
        rw [parseLine_of_three 0 text f hh ts heq, (ParseInt_ok_iff ts n).2 hd]
    · cases h
  · rintro ⟨⟨f, e⟩, hp⟩
    obtain ⟨ts, n, hs, hpi, _⟩ := parseLine_ok_inv 0 text f e hp
    unfold wellFormedLine
    rw [hs]
    simp only []
    rw [(ParseInt_ok_iff ts n).1 hpi]
    rfl

theorem cut_count (sep : Char) (s a b : GoString) (h : cut sep s = some (a, b)) :
    s.count sep = b.count sep + 1 := by
  obtain ⟨hs, ha⟩ := (cut_eq_some sep s a b).1 h
  rw [hs, List.count_append, List.count_cons_self, List.count_eq_zero_of_not_mem ha]
  omega

theorem SplitN_length (sep : Char) : ∀ (n : Nat) (s : GoString),
    (SplitN s sep (n + 1)).length = min (n + 1) (s.count sep + 1) := by
  intro n
  induction n with
  | zero => intro s; simp [SplitN]
  | succ n ih =>
    intro s
    simp only [SplitN]
    cases hc : cut sep s with
    | none =>
      have := (cut_eq_none sep s).1 hc
      simp [List.count_eq_zero_of_not_mem this]
    | some p =>
      obtain ⟨a, b⟩ := p
      simp only [List.length_cons, ih b, cut_count sep s a b hc]
      omega

/-- A string that contains a character which is neither a digit nor a sign is
no base-10 integer. -/
theorem decimalInt64_none_of_mem (s : GoString) (c : Char) (hc : c ∈ s)
    (hd : isDigit c = false) (hp : c ≠ '+') (hm : c ≠ '-') : decimalInt64 s = none := by
  cases s with
  | nil => simp at hc
  | cons x xs =>
    have hall : ∀ l : GoString, c ∈ l → ¬ l.all isDigit = true := by
      intro l hl hall
      rw [List.all_eq_true] at hall
      have := hall c hl
      rw [hd] at this
      cases this
    rw [decimalInt64_cons]
    by_cases h1 : x = '+'
    · have hxs : c ∈ xs := by
        rcases List.mem_cons.1 hc with h | h
        · exact absurd (h.trans h1) hp
        · exact h
      rw [if_pos h1, if_neg (fun h => hall xs hxs h.2)]
    · rw [if_neg h1]
      by_cases h2 : x = '-'
      · have hxs : c ∈ xs := by
          rcases List.mem_cons.1 hc with h | h
          · exact absurd (h.trans h2) hm
          · exact h
        rw [if_pos h2, if_neg (fun h => hall xs hxs h.2)]
      · rw [if_neg h2, if_neg (hall (x :: xs) hc)]

/-- A trimmed, non-empty string does not end in white space. -/
theorem TrimSpace_getLast (s : GoString) (h : TrimSpace s ≠ []) :
    isSpace ((TrimSpace s).getLast h) = false := by
  have := List.rdropWhile_last_not (p := isSpace) (l := s.dropWhile isSpace) h
  simpa using this

/-! ## mustLoadMtool: the three fatal exits -/

/-- After a prefix of well-formed lines with pairwise distinct identities the
loader is at the next line with a store that knows exactly those identities;
a failure of the loop body there is the result of the whole load. -/
theorem mustLoadMtool_prefix (pre rest : List GoString) (text : GoString)
    (err : Option GoError)
    (hwf : ∀ t ∈ pre, wellFormedLine t = true) (hnd : (pre.map identity).Nodup) :
    ∃ m : Store, (∀ name, m.get name = none ↔ name ∉ pre.map identity) ∧
      ∀ x, loadLine m (pre.length + 1) text = .error x →
        mustLoadMtool { lines := pre ++ text :: rest, err := err } = .error x :=
  mustLoadMtool_fails_at pre rest text err
    (fun t ht => (wellFormedLine_iff t).1 (hwf t ht)) hnd

/-- Counterexample to C8 as stated: the only line has four tab-separated
fields, yet the load does not fail with the field-count exit (status 10, with
line number) but with the integer-parse exit (status 15, no line number): the
split stops at three parts, and the third part "1<TAB>2" is no integer. -/
theorem mustLoadMtool_four_fields_counterexample :
    ("a.txt\thash1\t1\t2".toList).count '\t' + 1 = 4 ∧
    mustLoadMtool { lines := ["a.txt\thash1\t1\t2".toList], err := none }
      = .error (.parseInt "1\t2".toList .ErrSyntax) ∧
    (Fatal.parseInt "1\t2".toList .ErrSyntax).exitCode = 15 := by
  decide

/-- C8 (amended): let the lines before `bad` be well formed with pairwise
distinct identities. If `bad`, once trimmed, has fewer than three
tab-separated fields, the load fails with the field-count exit (status 10)
reporting the 1-based number of `bad` and the number of fields found. If it
has more than three, the load fails as well, but with the integer-parse exit
(status 15) on the third part, which keeps the remaining tabs. In both cases
no store is returned. -/
theorem mustLoadMtool_field_count (pre rest : List GoString) (bad : GoString)
    (err : Option GoError)
    (hwf : ∀ t ∈ pre, wellFormedLine t = true) (hnd : (pre.map identity).Nodup) :
    ((TrimSpace bad).count '\t' + 1 < 3 →
      mustLoadMtool { lines := pre ++ bad :: rest, err := err }
        = .error (.fieldCount (pre.length + 1) ((TrimSpace bad).count '\t' + 1)) ∧
      (Fatal.fieldCount (pre.length + 1) ((TrimSpace bad).count '\t' + 1)).exitCode = 10) ∧
    ((TrimSpace bad).count '\t' + 1 > 3 →
      ∃ ts e, '\t' ∈ ts ∧
        mustLoadMtool { lines := pre ++ bad :: rest, err := err } = .error (.parseInt ts e) ∧
        (Fatal.parseInt ts e).exitCode = 15) := by
  obtain ⟨m, _, hfail⟩ := mustLoadMtool_prefix pre rest bad err hwf hnd
  have hlen := SplitN_length '\t' 2 (TrimSpace bad)
  constructor
  · intro hlt
    refine ⟨?_, rfl⟩
    apply hfail
    apply loadLine_of_error
    have hl : (SplitN (TrimSpace bad) '\t' 3).length = (TrimSpace bad).count '\t' + 1 := by
      rw [hlen]; omega
    rw [parseLine_of_not_three _ _ (by rw [hl]; omega), hl]
  · intro hgt
    have hl : (SplitN (TrimSpace bad) '\t' 3).length = 3 := by
      rw [hlen]; omega
    obtain ⟨a, b, ts, hs⟩ : ∃ a b ts, SplitN (TrimSpace bad) '\t' 3 = [a, b, ts] := by
      match hsp : SplitN (TrimSpace bad) '\t' 3, hl with
      | [a, b, ts], _ => exact ⟨a, b, ts, rfl⟩
    obtain ⟨htext, ha, hb⟩ := (SplitN_three _ _ a b ts).1 hs
    have hts : '\t' ∈ ts := by
      by_contra hn
      have hc : (TrimSpace bad).count '\t' = 2 := by
        rw [htext]
        simp [List.count_append, List.count_eq_zero_of_not_mem ha,
          List.count_eq_zero_of_not_mem hb, List.count_eq_zero_of_not_mem hn]
      omega
    have hnone := decimalInt64_none_of_mem ts '\t' hts (by decide) (by decide) (by decide)
    have hspec := ParseInt_spec ts
    rw [hnone] at hspec
    obtain ⟨e, he⟩ := hspec
    refine ⟨ts, e, hts, ?_, rfl⟩
    apply hfail
    apply loadLine_of_error
    rw [parseLine_of_three _ _ a b ts hs, he]

/-- Instance of C8 (amended): a two-field line after one good line, and a
four-field line after one good line. -/
theorem mustLoadMtool_field_count_witness :
    mustLoadMtool { lines := ["a.txt\thash1\t1".toList, "b.txt\thash2".toList], err := none }
      = .error (.fieldCount 2 2) ∧
    (match mustLoadMtool ⟨["a.txt\thash1\t1".toList, "b.txt\thash2\t2\t3".toList], none⟩ with
      | .error x => x.exitCode
      | .ok _ => 0) = 15 := by
  refine ⟨((mustLoadMtool_field_count ["a.txt\thash1\t1".toList] [] "b.txt\thash2".toList none
      (by decide) (by decide)).1 (by decide)).1, ?_⟩
  obtain ⟨ts, e, _, h, hcode⟩ :=
    (mustLoadMtool_field_count ["a.txt\thash1\t1".toList] [] "b.txt\thash2\t2\t3".toList none
      (by decide) (by decide)).2 (by decide)
  have h2 : mustLoadMtool ⟨["a.txt\thash1\t1".toList, "b.txt\thash2\t2\t3".toList], none⟩
      = .error (.parseInt ts e) := h
  rw [h2]
  exact hcode

/-- Counterexample to C9 as stated: the line "a.txt<TAB>hash1<TAB>" has three
tab-separated fields and an empty third field, yet the load does not fail with
the integer-parse exit (status 15) but with the field-count exit (status 10),
since trimming removes the final tab; and the line "a.txt<TAB>hash1<TAB>5 " is
accepted although its third field "5 " is no base-10 integer. -/
theorem mustLoadMtool_timestamp_counterexample :
    (SplitN "a.txt\thash1\t".toList '\t' 3 = ["a.txt".toList, "hash1".toList, []] ∧
      decimalInt64 [] = none ∧
      mustLoadMtool ⟨["a.txt\thash1\t".toList], none⟩ = .error (.fieldCount 1 2) ∧
      (Fatal.fieldCount 1 2).exitCode = 10) ∧
    (SplitN "a.txt\thash1\t5 ".toList '\t' 3 = ["a.txt".toList, "hash1".toList, "5 ".toList] ∧
      decimalInt64 "5 ".toList = none ∧
      mustLoadMtool ⟨["a.txt\thash1\t5 ".toList], none⟩
        = .ok [("a.txt".toList, { sha1 := "hash1".toList, mtime := Unix 0 5 })]) := by
  decide

/-- C9 (amended): let the lines before `text` be well formed with pairwise
distinct identities, and let `text`, once trimmed, split into the three parts
`f`, `h`, `ts`. Then `ts` is not empty, and the loader accepts `ts` exactly
when it is a base-10 signed 64-bit integer: if it is not, the load fails with
the integer-parse exit (status 15) and returns no store; if it denotes `n`,
the line is read as the entry `(h, time.Unix(0, n))`, whose `UnixNano` is
exactly `n`, and when `text` is the last line and `f` is new the load returns
a store holding that entry for `f`. -/
theorem mustLoadMtool_timestamp (pre rest : List GoString) (text f h ts : GoString)
    (err : Option GoError)
    (hwf : ∀ t ∈ pre, wellFormedLine t = true) (hnd : (pre.map identity).Nodup)
    (hs : SplitN (TrimSpace text) '\t' 3 = [f, h, ts]) :
    ts ≠ [] ∧
    (decimalInt64 ts = none →
      ∃ e, mustLoadMtool { lines := pre ++ text :: rest, err := err } = .error (.parseInt ts e) ∧
        (Fatal.parseInt ts e).exitCode = 15) ∧
    (∀ n, decimalInt64 ts = some n →
      parseLine (pre.length + 1) text = .ok (f, { sha1 := h, mtime := Unix 0 n }) ∧
      (Unix 0 n).UnixNano = n ∧
      (f ∉ pre.map identity →
        ∃ m : Store, mustLoadMtool { lines := pre ++ [text], err := none } = .ok m ∧
          m.get f = some { sha1 := h, mtime := Unix 0 n })) := by
  refine ⟨?_, ?_, ?_⟩
  · rintro rfl
    obtain ⟨htext, _, _⟩ := (SplitN_three _ _ f h []).1 hs
    have hne : TrimSpace text ≠ [] := by rw [htext]; simp
    have hlast := TrimSpace_getLast text hne
    have key : ∀ (l : GoString) (hl : l ≠ []), l = (f ++ '\t' :: h) ++ ['\t'] →
        l.getLast hl = '\t' := by
      intro l hl heq
      subst heq
      simp
    have : (TrimSpace text).getLast hne = '\t' := key _ hne (by rw [htext]; simp)
    rw [this] at hlast
    revert hlast
    decide
  · intro hnone
    have hspec := ParseInt_spec ts
    rw [hnone] at hspec
    obtain ⟨e, he⟩ := hspec
    refine ⟨e, ?_, rfl⟩
    obtain ⟨m, _, hfail⟩ := mustLoadMtool_prefix pre rest text err hwf hnd
    apply hfail
    apply loadLine_of_error
    rw [parseLine_of_three _ _ f h ts hs, he]
  · intro n hn
    have hpi := (ParseInt_ok_iff ts n).2 hn
    have hr := decimalInt64_range ts n hn
    have hp : ∀ k, parseLine k text = .ok (f, { sha1 := h, mtime := Unix 0 n }) := by
      intro k
      rw [parseLine_of_three k text f h ts hs, hpi]
    refine ⟨hp _, UnixNano_Unix n hr.1 hr.2, fun hnew => ?_⟩
    obtain ⟨m, hm, htail⟩ := loadLoop_prefix pre 0 []
      (fun t ht => (wellFormedLine_iff t).1 (hwf t ht)) hnd (fun _ _ => rfl)
    have hget : m.get f = none := (hm f).2 ⟨rfl, hnew⟩
    refine ⟨m.set f { sha1 := h, mtime := Unix 0 n }, ?_, by rw [Store.get_set, if_pos rfl]⟩
    unfold mustLoadMtool
    simp only []
    rw [htail [text]]
    simp only [loadLoop, loadLine_of_ok m _ text f _ (hp _), hget]

/-- Instance of C9 (amended): after one good line, a third part that is out of
the int64 range, and one that is the smallest int64. -/
theorem mustLoadMtool_timestamp_witness :
    (match mustLoadMtool ⟨["a.txt\thash1\t1".toList,
        "b.txt\thash2\t9223372036854775808".toList], none⟩ with
      | .error x => x.exitCode
      | .ok _ => 0) = 15 ∧
    (Unix 0 (-9223372036854775808)).UnixNano = -9223372036854775808 := by
  constructor
  · obtain ⟨e, h, hcode⟩ :=
      (mustLoadMtool_timestamp ["a.txt\thash1\t1".toList] []
        "b.txt\thash2\t9223372036854775808".toList "b.txt".toList "hash2".toList
        "9223372036854775808".toList none (by decide) (by decide) (by decide)).2.1 (by decide)
    have h2 : mustLoadMtool ⟨["a.txt\thash1\t1".toList,
        "b.txt\thash2\t9223372036854775808".toList], none⟩
        = .error (.parseInt "9223372036854775808".toList e) := h
    rw [h2]
    exact hcode
  · exact ((mustLoadMtool_timestamp ["a.txt\thash1\t1".toList] []
        "b.txt\thash2\t-9223372036854775808".toList "b.txt".toList "hash2".toList
        "-9223372036854775808".toList none (by decide) (by decide) (by decide)).2.2
        (-9223372036854775808) (by decide)).2.1

/-! ## mustScanGitLsInput -/

theorem scanLine_of_record {σ : Type} (stat : σ → GoString → Except GoError Time)
    (fn : gitLsCallback σ) (lineNo : Nat) (text first fileName mode sha1 stage : GoString)
    (mtime : Time) (s : σ)
    (h1 : SplitN (TrimSpace text) '\t' 2 = [first, fileName])
    (h2 : stat s fileName = .ok mtime)
    (h3 : SplitN first ' ' 3 = [mode, sha1, stage]) :
    scanLine stat fn lineNo text s =
      match fn lineNo fileName sha1 mtime s with
      | (s1, some e) => (s1, some (.callbackErr lineNo e))
      | (s1, none) => (s1, none) := by
  unfold scanLine
  rw [h1]
  simp only []
  rw [h2]
  simp only []
  rw [h3]

theorem scanLoop_append {σ : Type} (stat : σ → GoString → Except GoError Time)
    (fn : gitLsCallback σ) (pre : List GoString) : ∀ (k : Nat) (s0 s : σ),
    scanLoop stat fn pre k s0 = (s, none) →
    ∀ tail, scanLoop stat fn (pre ++ tail) k s0 = scanLoop stat fn tail (k + pre.length) s := by
  induction pre with
  | nil =>
    intro k s0 s h tail
    simp only [scanLoop, Prod.mk.injEq, and_true] at h
    simp [h]
  | cons text pre ih =>
    intro k s0 s h tail
    simp only [scanLoop] at h
    simp only [List.cons_append, scanLoop, List.length_cons]
    cases hl : scanLine stat fn (k + 1) text s0 with
    | mk s1 r =>
      rw [hl] at h
      cases r with
      | some f => simp at h
      | none =>
        simp only [] at h ⊢
        exact (ih (k + 1) s1 s h tail).trans (by congr 1; omega)

/-- Counterexample to C10 as stated. The manifest line is
"100644 abc123 0<TAB>file.txt " with PATH "file.txt " (a name ending in a blank).
On a filesystem that holds only "file.txt ", the PATH lookup would succeed, but
the scan looks up the trimmed name "file.txt", fails with the stat exit and
never invokes the callback. On a filesystem that holds both names, the callback
is invoked with fileName "file.txt", which is not PATH, and with the mtime of
that other file. -/
theorem mustScanGitLsInput_path_counterexample :
    (statIn [("file.txt ".toList, Unix 0 2)] () "file.txt ".toList = .ok (Unix 0 2) ∧
      mustScanGitLsInput (statIn [("file.txt ".toList, Unix 0 2)])
        ⟨["100644 abc123 0\tfile.txt ".toList], none⟩ logCallback []
        = ([], some (.statErr "no such file or directory".toList))) ∧
    (mustScanGitLsInput (statIn [("file.txt ".toList, Unix 0 2), ("file.txt".toList, Unix 0 1)])
        ⟨["100644 abc123 0\tfile.txt ".toList], none⟩ logCallback []
        = ([(1, "file.txt".toList, "abc123".toList, Unix 0 1)], none) ∧
      "file.txt".toList ≠ "file.txt ".toList) :=
  ⟨⟨by decide, by decide⟩, by decide, by decide⟩

/-- The loop of the scan at a line MODE SP HASH SP STAGE TAB PATH without
leading or trailing white space whose PATH lookup succeeds. -/
theorem scanLoop_at_record {σ : Type} (stat : σ → GoString → Except GoError Time)
    (fn : gitLsCallback σ) (pre rest : List GoString) (mode hash stage path : GoString)
    (mtime : Time) (s0 s : σ)
    (hpre : scanLoop stat fn pre 0 s0 = (s, none))
    (hmode : ' ' ∉ mode ∧ '\t' ∉ mode) (hhash : ' ' ∉ hash ∧ '\t' ∉ hash)
    (hstage : '\t' ∉ stage)
    (htrim : TrimSpace (mode ++ ' ' :: (hash ++ ' ' :: (stage ++ '\t' :: path)))
      = mode ++ ' ' :: (hash ++ ' ' :: (stage ++ '\t' :: path)))
    (hstat : stat s path = .ok mtime) :
    scanLoop stat fn (pre ++ (mode ++ ' ' :: (hash ++ ' ' :: (stage ++ '\t' :: path))) :: rest)
        0 s0 =
      match fn (pre.length + 1) path hash mtime s with
      | (s1, some e) => (s1, some (.callbackErr (pre.length + 1) e))
      | (s1, none) => scanLoop stat fn rest (pre.length + 1) s1 := by
  rw [scanLoop_append stat fn pre 0 s0 s hpre]
  have h1 : SplitN (TrimSpace (mode ++ ' ' :: (hash ++ ' ' :: (stage ++ '\t' :: path)))) '\t' 2
      = [mode ++ ' ' :: (hash ++ ' ' :: stage), path] := by
    rw [htrim, SplitN_two]
    refine ⟨by simp, ?_⟩
    simp only [List.mem_append, List.mem_cons, not_or]
    exact ⟨hmode.2, by decide, hhash.2, by decide, hstage⟩
  have h3 : SplitN (mode ++ ' ' :: (hash ++ ' ' :: stage)) ' ' 3 = [mode, hash, stage] :=
    (SplitN_three _ _ mode hash stage).2 ⟨rfl, hmode.1, hhash.1⟩
  have hl := scanLine_of_record stat fn (pre.length + 1) _ _ path mode hash stage mtime s h1 hstat h3
  simp only [scanLoop, Nat.zero_add, hl]
  cases fn (pre.length + 1) path hash mtime s with
  | mk s1 r =>
    cases r with
    | some e => rfl
    | none => rfl

/-- C10 (amended): let the lines before have been processed without fatal
exit, leaving state `s`. For a line MODE SP HASH SP STAGE TAB PATH that has no
leading or trailing white space (MODE and HASH without blank or tab, STAGE
without tab) and whose PATH lookup succeeds with `mtime`, the scan invokes the
callback once for that line, with the 1-based number of the line, PATH, HASH
and `mtime`: its result is the callback exit for that line when the callback
fails, and otherwise the result of scanning the remaining lines from the state
the callback returned. MODE and STAGE do not reach the callback. -/
theorem mustScanGitLsInput_callback_args {σ : Type}
    (stat : σ → GoString → Except GoError Time)
    (fn : gitLsCallback σ) (pre rest : List GoString) (err : Option GoError)
    (mode hash stage path : GoString) (mtime : Time) (s0 s : σ)
    (hpre : scanLoop stat fn pre 0 s0 = (s, none))
    (hmode : ' ' ∉ mode ∧ '\t' ∉ mode) (hhash : ' ' ∉ hash ∧ '\t' ∉ hash)
    (hstage : '\t' ∉ stage)
    (htrim : TrimSpace (mode ++ ' ' :: (hash ++ ' ' :: (stage ++ '\t' :: path)))
      = mode ++ ' ' :: (hash ++ ' ' :: (stage ++ '\t' :: path)))
    (hstat : stat s path = .ok mtime) :
    mustScanGitLsInput stat
        { lines := pre ++ (mode ++ ' ' :: (hash ++ ' ' :: (stage ++ '\t' :: path))) :: rest,
          err := err } fn s0 =
      match fn (pre.length + 1) path hash mtime s with
      | (s1, some e) => (s1, some (.callbackErr (pre.length + 1) e))
      | (s1, none) =>
        match scanLoop stat fn rest (pre.length + 1) s1 with
        | (s2, some f) => (s2, some f)
        | (s2, none) =>
          match err with
          | some e => (s2, some (.scannerErr e))
          | none => (s2, none) := by
  unfold mustScanGitLsInput
  simp only []
  rw [scanLoop_at_record stat fn pre rest mode hash stage path mtime s0 s hpre hmode hhash
    hstage htrim hstat]
  cases fn (pre.length + 1) path hash mtime s with
  | mk s1 r =>
    cases r with
    | some e => rfl
    | none => rfl

/-- Instance of C10 (amended): the second line of a two-line manifest, with a
path that contains a blank, reaches the recording callback as
(2, "dir/b c.txt", "bbb", mtime of that file), after the first line reached it
as (1, "a.txt", "aaa", mtime of that file). -/
theorem mustScanGitLsInput_callback_args_witness :
    mustScanGitLsInput
      (statIn [("a.txt".toList, Unix 0 1), ("dir/b c.txt".toList, Unix 0 2)])
      ⟨["100644 aaa 0\ta.txt".toList, "100755 bbb 2\tdir/b c.txt".toList], none⟩ logCallback []
    = ([(1, "a.txt".toList, "aaa".toList, Unix 0 1),
        (2, "dir/b c.txt".toList, "bbb".toList, Unix 0 2)], none) :=
  mustScanGitLsInput_callback_args
    (statIn [("a.txt".toList, Unix 0 1), ("dir/b c.txt".toList, Unix 0 2)])
    logCallback ["100644 aaa 0\ta.txt".toList] [] none "100755".toList "bbb".toList "2".toList
    "dir/b c.txt".toList (Unix 0 2) [] [(1, "a.txt".toList, "aaa".toList, Unix 0 1)]
    (by decide) (by decide) (by decide) (by decide) (by decide) (by decide)

/-! ## The store a well-formed snapshot loads into -/

theorem Store.set_fresh (m : Store) (f : GoString) (e : entry) (h : m.get f = none) :
    m.set f e = m ++ [(f, e)] := by
  induction m with
  | nil => rfl
  | cons p rest ih =>
    obtain ⟨k, v⟩ := p
    simp only [Store.get] at h
    by_cases hk : k = f
    · rw [if_pos hk] at h; cases h
    · rw [if_neg hk] at h
      simp only [Store.set, if_neg hk, ih h, List.cons_append]

theorem Store.get_append (m1 m2 : Store) (f : GoString) :
    (m1 ++ m2).get f = match m1.get f with
      | some e => some e
      | none => m2.get f := by
  induction m1 with
  | nil => rfl
  | cons p rest ih =>
    obtain ⟨k, v⟩ := p
    simp only [List.cons_append, Store.get]
    by_cases hk : k = f
    · simp only [if_pos hk]
    · simp only [if_neg hk]
      exact ih

/-- Lines that are read as the records `recs`, with pairwise distinct file
names not yet in the store, are loaded by appending `recs` to the store. -/
theorem loadLoop_records (lines : List GoString) : ∀ (recs : Store) (k : Nat) (m0 : Store),
    lines.map (parseLine 0) = recs.map Except.ok → (recs.map Prod.fst).Nodup →
    (∀ r ∈ recs, m0.get r.1 = none) → loadLoop lines k m0 = .ok (m0 ++ recs) := by
  induction lines with
  | nil =>
    intro recs k m0 hmap _ _
    cases recs with
    | nil => simp [loadLoop]
    | cons r rs => simp at hmap
  | cons text lines ih =>
    intro recs k m0 hmap hnd hfresh
    cases recs with
    | nil => simp at hmap
    | cons r rs =>
      obtain ⟨f, e⟩ := r
      simp only [List.map_cons, List.cons.injEq] at hmap
      simp only [List.map_cons, List.nodup_cons] at hnd
      have hp1 := parseLine_ok_lineNo 0 (k + 1) text (f, e) hmap.1
      have hget : m0.get f = none := hfresh (f, e) (List.mem_cons_self _ _)
      have hll : loadLine m0 (k + 1) text = .ok (m0 ++ [(f, e)]) := by
        rw [loadLine_of_ok m0 (k + 1) text f e hp1, hget]
        simp only []
        rw [Store.set_fresh m0 f e hget]
      simp only [loadLoop, hll]
      rw [ih rs (k + 1) (m0 ++ [(f, e)]) hmap.2 hnd.2]
      · simp
      · intro r hr
        rw [Store.get_append, hfresh r (List.mem_cons_of_mem _ hr)]
        simp only [Store.get]
        rw [if_neg]
        intro heq
        apply hnd.1
        rw [heq]
        exact List.mem_map_of_mem _ hr

theorem mustLoadMtool_records (lines : List GoString) (recs : Store)
    (hmap : lines.map (parseLine 0) = recs.map Except.ok) (hnd : (recs.map Prod.fst).Nodup) :
    mustLoadMtool { lines := lines, err := none } = .ok recs := by
  unfold mustLoadMtool
  simp only []
  rw [loadLoop_records lines recs 0 [] hmap hnd (fun _ _ => rfl)]
  rfl

/-- Lookup in a store tabulated from a list of indices with distinct keys. -/
theorem Store.get_map (key : Nat → GoString) (val : Nat → entry) (l : List Nat)
    (hinj : ∀ a ∈ l, ∀ b ∈ l, key a = key b → a = b) (i : Nat) (hi : i ∈ l) :
    Store.get (l.map (fun j => (key j, val j))) (key i) = some (val i) := by
  induction l with
  | nil => simp at hi
  | cons a l ih =>
    simp only [List.map_cons, Store.get]
    by_cases ha : key a = key i
    · have := hinj a (List.mem_cons_self _ _) i hi ha
      subst this
      rw [if_pos rfl]
    · rw [if_neg ha]
      have hil : i ∈ l := by
        rcases List.mem_cons.1 hi with h | h
        · subst h; exact absurd rfl ha
        · exact h
      exact ih (fun a ha b hb => hinj a (List.mem_cons_of_mem _ ha) b (List.mem_cons_of_mem _ hb)) hil

/-! ## The verify pass -/

/-- What one verify-mode call does to the state: it returns nil, makes no
mutation call, keeps the flag, and counts the file as non-verifying exactly
when it needs a change. -/
theorem restoreCallback_verify_step (env : Env) (m : Store) (fileName sha1 : GoString)
    (mtime : Time) (s : Sys) :
    let r := restoreCallback env m fileName sha1 mtime true s
    r.2 = none ∧ r.1.mutations = s.mutations ∧ r.1.verbose = s.verbose ∧
    r.1.nonVerifyingFiles =
      (if needsChange m fileName sha1 mtime = true then (s.nonVerifyingFiles + 1) % 2 ^ 64
       else s.nonVerifyingFiles) := by
  intro r
  cases hg : m.get fileName with
  | none => simp [r, restoreCallback, needsChange, hg]
  | some e =>
    by_cases hs : e.sha1 = sha1
    · by_cases ht : mtime.UnixNano = e.mtime.UnixNano
      · simp [r, restoreCallback, needsChange, hg, hs, ht]
      · simp only [r, restoreCallback, needsChange, hg, hs, ht, ne_eq, not_true_eq_false,
          if_false, not_false_eq_true, if_true, decide_True, decide_not, decide_False,
          Bool.not_false, Bool.and_self, addUint64]
        split <;> simp
    · simp [r, restoreCallback, needsChange, hg, hs]

theorem manifestRecord_inv (text f h : GoString) (hr : manifestRecord text = some (f, h)) :
    ∃ first mode stage, SplitN (TrimSpace text) '\t' 2 = [first, f] ∧
      SplitN first ' ' 3 = [mode, h, stage] := by
  unfold manifestRecord at hr
  split at hr
  · rename_i first fileName heq
    split at hr
    · rename_i mode sha1 stage heq2
      simp only [Option.some.injEq, Prod.mk.injEq] at hr
      obtain ⟨rfl, rfl⟩ := hr
      exact ⟨first, mode, stage, heq, heq2⟩
    · cases hr
  · cases hr

theorem mismatches_cons (m : Store) (stat0 : GoString → Except GoError Time) (text : GoString)
    (lines : List GoString) :
    mismatches m stat0 (text :: lines) =
      (if lineNeedsChange m stat0 text = true then 1 else 0) + mismatches m stat0 lines := by
  unfold mismatches
  by_cases h : lineNeedsChange m stat0 text = true
  · simp [List.filter_cons, h]; omega
  · simp [List.filter_cons, h]

/-- A verify pass over a manifest whose lines all split as expected and whose
files all exist never exits inside the scan, makes no mutation call, and adds
the number of files needing a change to `nonVerifyingFiles`. -/
theorem scanLoop_verify (env : Env) (m : Store) (stat0 : GoString → Except GoError Time)
    (lines : List GoString) : ∀ (k : Nat) (s : Sys),
    (∀ text ∈ lines, ∃ f h t, manifestRecord text = some (f, h) ∧ stat0 f = .ok t) →
    s.nonVerifyingFiles < 2 ^ 64 →
    ∃ s1, scanLoop (fun _ => stat0)
        (fun _ fileName sha1 mtime st => restoreCallback env m fileName sha1 mtime true st)
        lines k s = (s1, none) ∧
      s1.mutations = s.mutations ∧ s1.verbose = s.verbose ∧
      s1.nonVerifyingFiles = (s.nonVerifyingFiles + mismatches m stat0 lines) % 2 ^ 64 := by
  induction lines with
  | nil =>
    intro k s _ hlt
    refine ⟨s, rfl, rfl, rfl, ?_⟩
    simp only [mismatches, List.filter_nil, List.length_nil, Nat.add_zero]
    exact (Nat.mod_eq_of_lt hlt).symm
  | cons text lines ih =>
    intro k s hall hlt
    obtain ⟨f, h, t, hrec, hstat⟩ := hall text (List.mem_cons_self _ _)
    obtain ⟨first, mode, stage, h1, h3⟩ := manifestRecord_inv text f h hrec
    have hline := scanLine_of_record (fun _ => stat0)
      (fun _ fileName sha1 mtime st => restoreCallback env m fileName sha1 mtime true st)
      (k + 1) text first f mode h stage t s h1 hstat h3
    obtain ⟨hnil, hmut, hverb, hnv⟩ := restoreCallback_verify_step env m f h t s
    cases hr : restoreCallback env m f h t true s with
    | mk s1 r =>
      rw [hr] at hnil hmut hverb hnv
      simp only [] at hnil hmut hverb hnv
      subst hnil
      simp only [] at hline
      rw [hr] at hline
      simp only [] at hline
      have hlt1 : s1.nonVerifyingFiles < 2 ^ 64 := by
        rw [hnv]
        split
        · exact Nat.mod_lt _ (by decide)
        · exact hlt
      obtain ⟨s2, hloop, hmut2, hverb2, hnv2⟩ := ih (k + 1) s1
        (fun t ht => hall t (List.mem_cons_of_mem _ ht)) hlt1
      refine ⟨s2, ?_, hmut2.trans hmut, hverb2.trans hverb, ?_⟩
      · simp only [scanLoop, hline]
        exact hloop
      · rw [hnv2, hnv, mismatches_cons]
        have hl : lineNeedsChange m stat0 text = needsChange m f h t := by
          unfold lineNeedsChange
          rw [hrec]
          simp only []
          rw [hstat]
        rw [hl]
        split
        · rw [Nat.add_mod, Nat.mod_mod, ← Nat.add_mod]
          congr 1
          omega
        · congr 1
          omega

/-- The argument of `os.Exit` at the end of a verify run that loads and scans
without fatal exit: the number of manifest lines naming an eligible file whose
mtime differs, reduced to a `uint64` and converted to `int`; no mutation call
has been made. -/
theorem mainRestoreVerify_verify (env : Env) (stat0 : GoString → Except GoError Time)
    (mtoolSrc : Scanner) (m : Store) (lines : List GoString) (verbose : Bool)
    (hload : mustLoadMtool mtoolSrc = .ok m)
    (hscan : ∀ text ∈ lines, ∃ f h t, manifestRecord text = some (f, h) ∧ stat0 f = .ok t) :
    (mainRestoreVerify env (fun _ => stat0) mtoolSrc { lines := lines, err := none } true
        (Sys.init verbose)).2 = intOfUint64 (mismatches m stat0 lines % 2 ^ 64) ∧
    (mainRestoreVerify env (fun _ => stat0) mtoolSrc { lines := lines, err := none } true
        (Sys.init verbose)).1.mutations = [] := by
  obtain ⟨s1, hloop, hmut, hverb, hnv⟩ :=
    scanLoop_verify env m stat0 lines 0 (Sys.init verbose) hscan (by simp [Sys.init])
  have hnv1 : s1.nonVerifyingFiles = mismatches m stat0 lines % 2 ^ 64 := by
    rw [hnv]; simp [Sys.init]
  unfold mainRestoreVerify
  rw [hload]
  simp only [mustScanGitLsInput, hloop]
  constructor
  · cases hv : s1.verbose <;> simp [hv, hnv1]
  · cases hv : s1.verbose <;> simp [hv, hmut, Sys.init]

/-! ## A verify run over 256 modified files -/

set_option maxRecDepth 100000 in
theorem fileNo_codes : ∀ i < 256, (fileNo i).map Char.toNat = [97 + i / 16, 97 + i % 16] := by
  decide

theorem fileNo_injective (i j : Nat) (hi : i < 256) (hj : j < 256) (h : fileNo i = fileNo j) :
    i = j := by
  have h1 := fileNo_codes i hi
  have h2 := fileNo_codes j hj
  rw [h, h2] at h1
  simp only [List.cons.injEq, and_true] at h1
  omega

theorem store256_keys_nodup : (store256.map Prod.fst).Nodup := by
  have : store256.map Prod.fst = (List.range 256).map fileNo := by
    simp [store256, List.map_map, Function.comp_def]
  rw [this]
  refine List.Nodup.map_on ?_ (List.nodup_range 256)
  intro a ha b hb hab
  exact fileNo_injective a b (List.mem_range.1 ha) (List.mem_range.1 hb) hab

set_option maxRecDepth 100000 in
theorem snapshot256_records : snapshot256.lines.map (parseLine 0) = store256.map Except.ok := by
  decide

theorem mustLoadMtool_snapshot256 : mustLoadMtool snapshot256 = .ok store256 :=
  mustLoadMtool_records snapshot256.lines store256 snapshot256_records store256_keys_nodup

set_option maxRecDepth 100000 in
theorem manifest256_records : ∀ i < 256,
    manifestRecord ("100644 hash1 0\t".toList ++ fileNo i) = some (fileNo i, "hash1".toList) := by
  decide

theorem store256_get (i : Nat) (hi : i < 256) :
    store256.get (fileNo i) = some { sha1 := "hash1".toList, mtime := Unix 0 1000000000 } :=
  Store.get_map fileNo (fun _ => { sha1 := "hash1".toList, mtime := Unix 0 1000000000 })
    (List.range 256)
    (fun a ha b hb hab => fileNo_injective a b (List.mem_range.1 ha) (List.mem_range.1 hb) hab)
    i (List.mem_range.2 hi)

theorem manifest256_all_need_change :
    ∀ text ∈ manifest256.lines, lineNeedsChange store256 statTwo text = true := by
  intro text ht
  simp only [manifest256, List.mem_map, List.mem_range] at ht
  obtain ⟨i, hi, rfl⟩ := ht
  unfold lineNeedsChange
  rw [manifest256_records i hi]
  simp only [statTwo, needsChange, store256_get i hi]
  decide

theorem mismatches_manifest256 : mismatches store256 statTwo manifest256.lines = 256 := by
  unfold mismatches
  rw [List.filter_eq_self.2 manifest256_all_need_change]
  simp [manifest256]

/-! ## Frame properties of the scan -/

/-- A quantity that the callback never changes is not changed by the scan. -/
theorem scanLoop_frame {σ α : Type} (stat : σ → GoString → Except GoError Time)
    (fn : gitLsCallback σ) (g : σ → α)
    (hfn : ∀ k f h t s, g (fn k f h t s).1 = g s) (lines : List GoString) :
    ∀ (k : Nat) (s : σ), g (scanLoop stat fn lines k s).1 = g s := by
  have hline : ∀ k text s, g (scanLine stat fn k text s).1 = g s := by
    intro k text s
    unfold scanLine
    split
    · split
      · rfl
      · split
        · split
          · rename_i heq
            exact (congrArg (fun p => g p.1) heq).symm.trans (hfn _ _ _ _ _)
          · rename_i heq
            exact (congrArg (fun p => g p.1) heq).symm.trans (hfn _ _ _ _ _)
        · rfl
    · rfl
  induction lines with
  | nil => intro k s; rfl
  | cons text lines ih =>
    intro k s
    simp only [scanLoop]
    have h1 := hline (k + 1) text s
    cases hl : scanLine stat fn (k + 1) text s with
    | mk s1 r =>
      rw [hl] at h1
      cases r with
      | some f => exact h1
      | none => exact (ih (k + 1) s1).trans h1

theorem mustScanGitLsInput_frame {σ α : Type} (stat : σ → GoString → Except GoError Time)
    (fn : gitLsCallback σ) (g : σ → α)
    (hfn : ∀ k f h t s, g (fn k f h t s).1 = g s) (scanner : Scanner) (s : σ) :
    g (mustScanGitLsInput stat scanner fn s).1 = g s := by
  have h := scanLoop_frame stat fn g hfn scanner.lines 0 s
  unfold mustScanGitLsInput
  cases hl : scanLoop stat fn scanner.lines 0 s with
  | mk s1 r =>
    rw [hl] at h
    cases r with
    | some f => exact h
    | none =>
      simp only []
      cases scanner.err <;> exact h

/-- C2: with verifyOnly = true, whatever the store, the triple and the state,
`restoreCallback` adds no `os.Chtimes` call to the log and returns nil; hence a
verify run of `main`, whatever the snapshot, the manifest and the filesystem
answers, ends with the log of mutation calls it started with. -/
theorem verify_never_mutates (env : Env) (m : Store) (fileName sha1 : GoString)
    (mtime : Time) (s : Sys) (stat : Sys → GoString → Except GoError Time)
    (mtoolSrc inputScanner : Scanner) :
    (restoreCallback env m fileName sha1 mtime true s).1.mutations = s.mutations ∧
    (restoreCallback env m fileName sha1 mtime true s).2 = none ∧
    (mainRestoreVerify env stat mtoolSrc inputScanner true s).1.mutations = s.mutations := by
  refine ⟨(restoreCallback_verify_frame env m fileName sha1 mtime s).1,
    (restoreCallback_verify_frame env m fileName sha1 mtime s).2, ?_⟩
  unfold mainRestoreVerify
  cases mustLoadMtool mtoolSrc with
  | error f => rfl
  | ok m1 =>
    simp only []
    have h := mustScanGitLsInput_frame stat
      (fun _ fileName sha1 mtime st => restoreCallback env m1 fileName sha1 mtime true st)
      Sys.mutations
      (fun _ f h t s => (restoreCallback_verify_frame env m1 f h t s).1) inputScanner s
    cases hl : mustScanGitLsInput stat inputScanner
        (fun _ fileName sha1 mtime st => restoreCallback env m1 fileName sha1 mtime true st) s with
    | mk s1 r =>
      rw [hl] at h
      cases r with
      | some f => exact h
      | none =>
        simp only [if_true]
        split <;> exact h

/-- C5 (the failing input evaluated): the snapshot records 256 files and the
manifest lists the same 256 files, all with a current mtime that differs from
the recorded one. The load succeeds, all 256 files are eligible and need a
change, and `main` calls `os.Exit(256)`; the status a POSIX parent observes is
the low 8 bits of that, which is 0, the status that is documented to mean that
no changes are needed. -/
theorem verify_exit_status_256 :
    mustLoadMtool snapshot256 = .ok store256 ∧
    mismatches store256 statTwo manifest256.lines = 256 ∧
    (mainRestoreVerify envOk (fun _ => statTwo) snapshot256 manifest256 true
      (Sys.init false)).2 = 256 ∧
    posixExitStatus (mainRestoreVerify envOk (fun _ => statTwo) snapshot256 manifest256 true
      (Sys.init false)).2 = 0 := by
  have hscan : ∀ text ∈ manifest256.lines,
      ∃ f h t, manifestRecord text = some (f, h) ∧ statTwo f = .ok t := by
    intro text ht
    simp only [manifest256, List.mem_map, List.mem_range] at ht
    obtain ⟨i, hi, rfl⟩ := ht
    exact ⟨_, _, _, manifest256_records i hi, rfl⟩
  have h := (mainRestoreVerify_verify envOk statTwo snapshot256 store256 manifest256.lines false
    mustLoadMtool_snapshot256 hscan).1
  rw [mismatches_manifest256] at h
  have h2 : (mainRestoreVerify envOk (fun _ => statTwo) snapshot256 manifest256 true
      (Sys.init false)).2 = 256 := by
    rw [show manifest256 = { lines := manifest256.lines, err := none } from rfl, h]
    decide
  refine ⟨mustLoadMtool_snapshot256, mismatches_manifest256, h2, ?_⟩
  rw [h2]
  decide

/-! ## mustScanGitLsInput: the field-count exits -/

theorem scanLine_no_tab {σ : Type} (stat : σ → GoString → Except GoError Time)
    (fn : gitLsCallback σ) (lineNo : Nat) (text : GoString) (s : σ)
    (h : (SplitN (TrimSpace text) '\t' 2).length ≠ 2) :
    scanLine stat fn lineNo text s = (s, some (.twoFields lineNo)) := by
  unfold scanLine
  split
  · rename_i heq
    rw [heq] at h
    exact absurd rfl h
  · rfl

theorem scanLine_first_field {σ : Type} (stat : σ → GoString → Except GoError Time)
    (fn : gitLsCallback σ) (lineNo : Nat) (text first fileName : GoString) (mtime : Time)
    (s : σ)
    (h1 : SplitN (TrimSpace text) '\t' 2 = [first, fileName])
    (h2 : stat s fileName = .ok mtime)
    (h3 : (SplitN first ' ' 3).length ≠ 3) :
    scanLine stat fn lineNo text s = (s, some (.firstField lineNo)) := by
  unfold scanLine
  rw [h1]
  simp only []
  rw [h2]
  simp only []
  split
  · rename_i heq
    rw [heq] at h3
    exact absurd rfl h3
  · rfl

/-- A fatal exit of the loop body at the line after a prefix processed without
fatal exit is the result of the scan. -/
theorem mustScanGitLsInput_fails_at {σ : Type} (stat : σ → GoString → Except GoError Time)
    (fn : gitLsCallback σ) (pre rest : List GoString) (text : GoString)
    (err : Option GoError) (s0 s s1 : σ) (x : Fatal)
    (hpre : scanLoop stat fn pre 0 s0 = (s, none))
    (hline : scanLine stat fn (pre.length + 1) text s = (s1, some x)) :
    mustScanGitLsInput stat { lines := pre ++ text :: rest, err := err } fn s0
      = (s1, some x) := by
  unfold mustScanGitLsInput
  simp only []
  rw [scanLoop_append stat fn pre 0 s0 s hpre]
  simp only [scanLoop, Nat.zero_add, hline]

/-- Counterexample to C11 as stated. The line "<TAB>100644 hash1 0<TAB>file.txt"
splits on its first tab into an empty metadata group and the path
"100644 hash1 0<TAB>file.txt", whose lookup succeeds; the empty group holds none
of MODE, HASH and STAGE. Yet the scan, which trims the line first, does not
fail: it invokes the callback with ("file.txt", "hash1"). And for the line
"100644 hash1<TAB>file.txt ", whose metadata group lacks STAGE and whose path
"file.txt " exists, the scan fails with the stat exit (status 15) on the
trimmed name instead of the malformed-first-field exit (status 10). -/
theorem mustScanGitLsInput_malformed_counterexample :
    (SplitN "\t100644 hash1 0\tfile.txt".toList '\t' 2
        = [[], "100644 hash1 0\tfile.txt".toList] ∧
      (SplitN [] ' ' 3).length = 1 ∧
      statIn [("100644 hash1 0\tfile.txt".toList, Unix 0 2), ("file.txt".toList, Unix 0 1)] ()
        "100644 hash1 0\tfile.txt".toList = .ok (Unix 0 2) ∧
      mustScanGitLsInput
        (statIn [("100644 hash1 0\tfile.txt".toList, Unix 0 2), ("file.txt".toList, Unix 0 1)])
        ⟨["\t100644 hash1 0\tfile.txt".toList], none⟩ logCallback []
        = ([(1, "file.txt".toList, "hash1".toList, Unix 0 1)], none)) ∧
    (SplitN "100644 hash1\tfile.txt ".toList '\t' 2
        = ["100644 hash1".toList, "file.txt ".toList] ∧
      (SplitN "100644 hash1".toList ' ' 3).length = 2 ∧
      statIn [("file.txt ".toList, Unix 0 2)] () "file.txt ".toList = .ok (Unix 0 2) ∧
      mustScanGitLsInput (statIn [("file.txt ".toList, Unix 0 2)])
        ⟨["100644 hash1\tfile.txt ".toList], none⟩ logCallback []
        = ([], some (.statErr "no such file or directory".toList)) ∧
      (Fatal.statErr "no such file or directory".toList).exitCode = 15) :=
  ⟨⟨by decide, by decide, by decide, by decide⟩,
   ⟨by decide, by decide, by decide, by decide, by decide⟩⟩

/-- C11 (amended): let the lines before `text` have been processed without
fatal exit, leaving state `s`. If `text`, once trimmed, does not split on its
first tab into 2 parts, the scan fails with the two-fields exit (status 10)
reporting the 1-based number of `text`. If it splits into `first` and
`fileName`, the lookup of `fileName` succeeds, and `first` does not split on
its first two blanks into 3 parts, the scan fails with the malformed-first-field
exit (status 10) reporting that number. In both cases the final state is `s`:
the callback has been invoked neither for that line nor for a later one. -/
theorem mustScanGitLsInput_malformed {σ : Type} (stat : σ → GoString → Except GoError Time)
    (fn : gitLsCallback σ) (pre rest : List GoString) (text : GoString)
    (err : Option GoError) (s0 s : σ)
    (hpre : scanLoop stat fn pre 0 s0 = (s, none)) :
    ((SplitN (TrimSpace text) '\t' 2).length ≠ 2 →
      mustScanGitLsInput stat { lines := pre ++ text :: rest, err := err } fn s0
        = (s, some (.twoFields (pre.length + 1))) ∧
      (Fatal.twoFields (pre.length + 1)).exitCode = 10) ∧
    (∀ first fileName mtime, SplitN (TrimSpace text) '\t' 2 = [first, fileName] →
      stat s fileName = .ok mtime → (SplitN first ' ' 3).length ≠ 3 →
      mustScanGitLsInput stat { lines := pre ++ text :: rest, err := err } fn s0
        = (s, some (.firstField (pre.length + 1))) ∧
      (Fatal.firstField (pre.length + 1)).exitCode = 10) := by
  constructor
  · intro h
    exact ⟨mustScanGitLsInput_fails_at stat fn pre rest text err s0 s s _ hpre
      (scanLine_no_tab stat fn _ text s h), rfl⟩
  · intro first fileName mtime h1 h2 h3
    exact ⟨mustScanGitLsInput_fails_at stat fn pre rest text err s0 s s _ hpre
      (scanLine_first_field stat fn _ text first fileName mtime s h1 h2 h3), rfl⟩

/-- Instance of C11 (amended): after one good line, a line without tab, and a
line whose first part has only two tokens; the recording callback has seen
line 1 only, although a good line follows. -/
theorem mustScanGitLsInput_malformed_witness :
    mustScanGitLsInput (statIn [("a.txt".toList, Unix 0 1), ("b.txt".toList, Unix 0 2)])
      ⟨["100644 aaa 0\ta.txt".toList, "100644 bbb 0 b.txt".toList,
        "100644 aaa 0\ta.txt".toList], none⟩ logCallback []
      = ([(1, "a.txt".toList, "aaa".toList, Unix 0 1)], some (.twoFields 2)) ∧
    mustScanGitLsInput (statIn [("a.txt".toList, Unix 0 1), ("b.txt".toList, Unix 0 2)])
      ⟨["100644 aaa 0\ta.txt".toList, "100644 bbb\tb.txt".toList,
        "100644 aaa 0\ta.txt".toList], none⟩ logCallback []
      = ([(1, "a.txt".toList, "aaa".toList, Unix 0 1)], some (.firstField 2)) :=
  ⟨((mustScanGitLsInput_malformed
      (statIn [("a.txt".toList, Unix 0 1), ("b.txt".toList, Unix 0 2)]) logCallback
      ["100644 aaa 0\ta.txt".toList] ["100644 aaa 0\ta.txt".toList]
      "100644 bbb 0 b.txt".toList none [] [(1, "a.txt".toList, "aaa".toList, Unix 0 1)]
      (by decide)).1 (by decide)).1,
   ((mustScanGitLsInput_malformed
      (statIn [("a.txt".toList, Unix 0 1), ("b.txt".toList, Unix 0 2)]) logCallback
      ["100644 aaa 0\ta.txt".toList] ["100644 aaa 0\ta.txt".toList]
      "100644 bbb\tb.txt".toList none [] [(1, "a.txt".toList, "aaa".toList, Unix 0 1)]
      (by decide)).2 "100644 bbb".toList "b.txt".toList (Unix 0 2)
      (by decide) (by decide) (by decide)).1⟩

/-! ## mustScanGitLsInput: the callback exit -/

theorem scanLine_eq {σ : Type} (stat : σ → GoString → Except GoError Time)
    (fn : gitLsCallback σ) (lineNo : Nat) (text : GoString) (s : σ) :
    scanLine stat fn lineNo text s =
      match scanTriple stat lineNo text s with
      | .error x => (s, some x)
      | .ok (f, h, t) =>
        match fn lineNo f h t s with
        | (s1, some e) => (s1, some (.callbackErr lineNo e))
        | (s1, none) => (s1, none) := by
  unfold scanLine scanTriple
  split
  · split
    · rfl
    · split
      · rfl
      · rfl
  · rfl

theorem invocations_zero (k : Nat) (last : Option GoError) : invocations k 0 last = [] := rfl

theorem invocations_one (k : Nat) (last : Option GoError) :
    invocations k 1 last = [(k + 1, last)] := by
  simp [invocations, List.range_succ]

theorem invocations_succ (k j : Nat) (last : Option GoError) (hj : 0 < j) :
    (k + 1, none) :: invocations (k + 1) j last = invocations k (j + 1) last := by
  unfold invocations
  rw [List.range_succ_eq_map]
  simp only [List.map_cons, List.map_map, Nat.add_zero, zero_add]
  congr 1
  · have : ¬ (1 = j + 1) := by omega
    simp [this]
  · apply List.map_congr_left
    intro i _
    simp only [Function.comp]
    congr 1
    · omega
    · simp

/-- The record kept by an instrumented callback during the loop: consecutive
line numbers from the first line scanned, nil results except possibly the
last, and a last result that is an error only if the loop exits on it. -/
theorem scanLoop_traced {σ : Type} (stat : σ → GoString → Except GoError Time)
    (fn : gitLsCallback σ) (lines : List GoString) :
    ∀ (k : Nat) (s : σ) (log0 : List (Nat × Option GoError)),
    ∃ j last,
      (scanLoop (fun st => stat st.1) (traced fn) lines k (s, log0)).1.2
        = log0 ++ invocations k j last ∧
      (j = 0 → last = none) ∧
      (∀ e, last = some e →
        (scanLoop (fun st => stat st.1) (traced fn) lines k (s, log0)).2
          = some (.callbackErr (k + j) e)) := by
  induction lines with
  | nil =>
    intro k s log0
    exact ⟨0, none, by simp [scanLoop, invocations], fun _ => rfl, fun e h => by cases h⟩
  | cons text lines ih =>
    intro k s log0
    simp only [scanLoop]
    rw [scanLine_eq]
    cases hts : scanTriple (fun st : σ × List (Nat × Option GoError) => stat st.1) (k + 1) text
        (s, log0) with
    | error x =>
      exact ⟨0, none, by simp [invocations], fun _ => rfl, fun e h => by cases h⟩
    | ok tr =>
      obtain ⟨f, h, t⟩ := tr
      simp only [traced]
      cases hfn : fn (k + 1) f h t s with
      | mk s1 r =>
        cases r with
        | some e =>
          refine ⟨1, some e, ?_, fun h0 => by omega, fun e1 he1 => ?_⟩
          · simp [invocations_one]
          · cases he1
            rfl
        | none =>
          simp only []
          obtain ⟨j, last, hlog, hz, herr⟩ := ih (k + 1) s1 (log0 ++ [(k + 1, none)])
          by_cases hj : j = 0
          · subst hj
            have hl := hz rfl
            subst hl
            refine ⟨1, none, ?_, fun h0 => by omega, fun e1 he1 => by cases he1⟩
            rw [hlog]
            simp [invocations_one, invocations_zero]
          · refine ⟨j + 1, last, ?_, fun h0 => by omega, fun e1 he1 => ?_⟩
            · rw [hlog, ← invocations_succ k j last (by omega)]
              simp
            · rw [herr e1 he1]
              congr 2
              omega

/-- The instrumentation changes neither the state nor the outcome of the loop. -/
theorem scanLoop_traced_proj {σ : Type} (stat : σ → GoString → Except GoError Time)
    (fn : gitLsCallback σ) (lines : List GoString) :
    ∀ (k : Nat) (s : σ) (log0 : List (Nat × Option GoError)),
    (scanLoop (fun st => stat st.1) (traced fn) lines k (s, log0)).1.1
        = (scanLoop stat fn lines k s).1 ∧
    (scanLoop (fun st => stat st.1) (traced fn) lines k (s, log0)).2
        = (scanLoop stat fn lines k s).2 := by
  induction lines with
  | nil => intro k s log0; exact ⟨rfl, rfl⟩
  | cons text lines ih =>
    intro k s log0
    simp only [scanLoop]
    rw [scanLine_eq, scanLine_eq]
    have hts : scanTriple (fun st : σ × List (Nat × Option GoError) => stat st.1) (k + 1) text
        (s, log0) = scanTriple stat (k + 1) text s := rfl
    rw [hts]
    cases scanTriple stat (k + 1) text s with
    | error x => exact ⟨rfl, rfl⟩
    | ok tr =>
      obtain ⟨f, h, t⟩ := tr
      simp only [traced]
      cases hfn : fn (k + 1) f h t s with
      | mk s1 r =>
        cases r with
        | some e => exact ⟨rfl, rfl⟩
        | none => exact ih (k + 1) s1 _

/-- C12: run the scan with the callback instrumented to record its
invocations (which changes neither the final state nor the outcome). If the
record holds an invocation for line `n` that returned the error `e`, then the
record is exactly one invocation for each of the lines 1, ..., n in that
order, all returning nil except the one for line `n`; no later line reached
the callback; and the scan ended in the callback exit (status 20) reporting
line `n` and the error `e`. -/
theorem mustScanGitLsInput_first_error {σ : Type}
    (stat : σ → GoString → Except GoError Time) (fn : gitLsCallback σ) (scanner : Scanner)
    (s0 : σ) (n : Nat) (e : GoError)
    (herr : (n, some e) ∈
      (mustScanGitLsInput (fun st => stat st.1) scanner (traced fn) (s0, [])).1.2) :
    (mustScanGitLsInput (fun st => stat st.1) scanner (traced fn) (s0, [])).1.2
      = invocations 0 n (some e) ∧
    (mustScanGitLsInput (fun st => stat st.1) scanner (traced fn) (s0, [])).2
      = some (.callbackErr n e) ∧
    (Fatal.callbackErr n e).exitCode = 20 ∧
    (mustScanGitLsInput stat scanner fn s0).2 = some (.callbackErr n e) ∧
    (mustScanGitLsInput stat scanner fn s0).1
      = (mustScanGitLsInput (fun st => stat st.1) scanner (traced fn) (s0, [])).1.1 := by
  obtain ⟨j, last, hlog, hz, hres⟩ := scanLoop_traced stat fn scanner.lines 0 s0 []
  obtain ⟨hp1, hp2⟩ := scanLoop_traced_proj stat fn scanner.lines 0 s0 []
  have hstate : (mustScanGitLsInput (fun st => stat st.1) scanner (traced fn) (s0, [])).1
      = (scanLoop (fun st => stat st.1) (traced fn) scanner.lines 0 (s0, [])).1 := by
    unfold mustScanGitLsInput
    cases hl : scanLoop (fun st : σ × List (Nat × Option GoError) => stat st.1) (traced fn)
        scanner.lines 0 (s0, []) with
    | mk s1 r =>
      cases r with
      | some f => rfl
      | none => cases scanner.err <;> rfl
  have hstate2 : (mustScanGitLsInput stat scanner fn s0).1
      = (scanLoop stat fn scanner.lines 0 s0).1 := by
    unfold mustScanGitLsInput
    cases hl : scanLoop stat fn scanner.lines 0 s0 with
    | mk s1 r =>
      cases r with
      | some f => rfl
      | none => cases scanner.err <;> rfl
  rw [hstate, hlog, List.nil_append] at herr
  unfold invocations at herr
  simp only [List.mem_map, List.mem_range, Prod.mk.injEq] at herr
  obtain ⟨i, hi, hn, hlast⟩ := herr
  have hij : i + 1 = j := by
    by_contra hne
    rw [if_neg hne] at hlast
    cases hlast
  rw [if_pos hij] at hlast
  have hnj : n = j := by omega
  subst hnj
  have hloop := hres e hlast
  rw [Nat.zero_add] at hloop
  have hres1 : (mustScanGitLsInput (fun st => stat st.1) scanner (traced fn) (s0, [])).2
      = some (.callbackErr n e) := by
    unfold mustScanGitLsInput
    cases hl : scanLoop (fun st : σ × List (Nat × Option GoError) => stat st.1) (traced fn)
        scanner.lines 0 (s0, []) with
    | mk s1 r =>
      rw [hl] at hloop
      simp only [] at hloop
      subst hloop
      rfl
  have hres2 : (mustScanGitLsInput stat scanner fn s0).2 = some (.callbackErr n e) := by
    rw [hp2] at hloop
    unfold mustScanGitLsInput
    cases hl : scanLoop stat fn scanner.lines 0 s0 with
    | mk s1 r =>
      rw [hl] at hloop
      simp only [] at hloop
      subst hloop
      rfl
  refine ⟨?_, hres1, rfl, hres2, ?_⟩
  · rw [hstate, hlog, hlast, List.nil_append]
  · rw [hstate, hstate2, hp1]

/-- Instance of C12: a three-line manifest and a callback that fails at line 2.
The callback is invoked for lines 1 and 2 only, and the scan exits reporting
line 2 and its error. -/
theorem mustScanGitLsInput_first_error_witness :
    (mustScanGitLsInput (fun st => statIn [("a.txt".toList, Unix 0 1)] st.1)
        ⟨["100644 aaa 0\ta.txt".toList, "100644 aaa 0\ta.txt".toList,
          "100644 aaa 0\ta.txt".toList], none⟩ (traced (failAt 2)) ([], [])).1.2
      = [(1, none), (2, some "disk full".toList)] ∧
    mustScanGitLsInput (statIn [("a.txt".toList, Unix 0 1)])
        ⟨["100644 aaa 0\ta.txt".toList, "100644 aaa 0\ta.txt".toList,
          "100644 aaa 0\ta.txt".toList], none⟩ (failAt 2) []
      = ([1, 2], some (.callbackErr 2 "disk full".toList)) := by
  have h := mustScanGitLsInput_first_error (statIn [("a.txt".toList, Unix 0 1)]) (failAt 2)
    ⟨["100644 aaa 0\ta.txt".toList, "100644 aaa 0\ta.txt".toList,
      "100644 aaa 0\ta.txt".toList], none⟩ [] 2 "disk full".toList (by decide)
  refine ⟨h.1.trans (by decide), ?_⟩
  exact Prod.ext (h.2.2.2.2.trans (by decide)) h.2.2.2.1

/-! ## The create pass -/

theorem Fatal.exitCode_ne_zero (x : Fatal) : x.exitCode ≠ 0 := by
  cases x <;> simp [Fatal.exitCode]

theorem mainCreate_ok (stat : GoString → GoString → Except GoError Time) (write : WriteOracle)
    (inputScanner : Scanner) (out0 out : GoString)
    (h : mainCreate stat write inputScanner out0 = (out, 0)) :
    mustScanGitLsInput stat inputScanner (createCallback write) out0 = (out, none) := by
  unfold mainCreate at h
  cases hs : mustScanGitLsInput stat inputScanner (createCallback write) out0 with
  | mk o r =>
    rw [hs] at h
    cases r with
    | some f =>
      simp only [Prod.mk.injEq] at h
      exact absurd h.2 (Fatal.exitCode_ne_zero f)
    | none =>
      simp only [Prod.mk.injEq] at h
      rw [h.1]

theorem mustScanGitLsInput_ok {σ : Type} (stat : σ → GoString → Except GoError Time)
    (fn : gitLsCallback σ) (scanner : Scanner) (s0 s : σ)
    (h : mustScanGitLsInput stat scanner fn s0 = (s, none)) :
    scanLoop stat fn scanner.lines 0 s0 = (s, none) := by
  unfold mustScanGitLsInput at h
  cases hl : scanLoop stat fn scanner.lines 0 s0 with
  | mk s1 r =>
    rw [hl] at h
    cases r with
    | some f => simp at h
    | none =>
      simp only [] at h
      cases he : scanner.err with
      | some e => rw [he] at h; simp at h
      | none =>
        rw [he] at h
        simp only [Prod.mk.injEq, and_true] at h
        rw [h]

/-- A line the loop gets past without fatal exit has handed its triple to the
callback, which returned nil. -/
theorem scanLine_ok_inv {σ : Type} (stat : σ → GoString → Except GoError Time)
    (fn : gitLsCallback σ) (k : Nat) (text : GoString) (s s1 : σ)
    (h : scanLine stat fn k text s = (s1, none)) :
    ∃ f hh t, scanTriple stat k text s = .ok (f, hh, t) ∧ fn k f hh t s = (s1, none) := by
  rw [scanLine_eq] at h
  cases hts : scanTriple stat k text s with
  | error x => rw [hts] at h; simp at h
  | ok tr =>
    obtain ⟨f, hh, t⟩ := tr
    rw [hts] at h
    simp only [] at h
    refine ⟨f, hh, t, rfl, ?_⟩
    cases hfn : fn k f hh t s with
    | mk s2 r =>
      rw [hfn] at h
      cases r with
      | some e => simp at h
      | none =>
        simp only [Prod.mk.injEq, and_true] at h
        rw [h]

/-- The output of a create pass that ends without fatal exit: one record per
line scanned, in order. -/
theorem scanLoop_create (stat : GoString → GoString → Except GoError Time)
    (write : WriteOracle) (lines : List GoString) : ∀ (k : Nat) (out0 out : GoString),
    scanLoop stat (createCallback write) lines k out0 = (out, none) →
    ∃ triples : List (GoString × GoString × Time),
      List.Forall₂ (fun text tr => ∃ s k1, scanTriple stat k1 text s = .ok tr) lines triples ∧
      out = out0 ++
        (triples.map (fun tr => formatRecord tr.1 tr.2.1 tr.2.2 ++ ['\n'])).flatten := by
  induction lines with
  | nil =>
    intro k out0 out h
    simp only [scanLoop, Prod.mk.injEq, and_true] at h
    exact ⟨[], List.Forall₂.nil, by simp [h]⟩
  | cons text lines ih =>
    intro k out0 out h
    simp only [scanLoop] at h
    cases hl : scanLine stat (createCallback write) (k + 1) text out0 with
    | mk s1 r =>
      rw [hl] at h
      cases r with
      | some f => simp at h
      | none =>
        simp only [] at h
        obtain ⟨f, hh, t, hts, hfn⟩ := scanLine_ok_inv stat _ (k + 1) text out0 s1 hl
        have hs1 : s1 = out0 ++ (formatRecord f hh t ++ ['\n']) := by
          unfold createCallback at hfn
          simp only [] at hfn
          cases hw : write out0 (formatRecord f hh t ++ ['\n']) with
          | none =>
            rw [hw] at hfn
            simp only [Prod.mk.injEq, and_true] at hfn
            exact hfn.symm
          | some p =>
            rw [hw] at hfn
            simp at hfn
        obtain ⟨triples, hall, hout⟩ := ih (k + 1) s1 out h
        refine ⟨(f, hh, t) :: triples, List.Forall₂.cons ⟨out0, k + 1, hts⟩ hall, ?_⟩
        rw [hout, hs1]
        simp

theorem mem_TrimSpace (c : Char) (s : GoString) (h : c ∈ TrimSpace s) : c ∈ s := by
  unfold TrimSpace at h
  rw [List.mem_reverse] at h
  have h1 := (List.dropWhile_sublist isSpace).subset h
  rw [List.mem_reverse] at h1
  exact (List.dropWhile_sublist isSpace).subset h1

/-- The characters of the file name and of the hash of a scanned triple are
characters of the line. -/
theorem scanTriple_mem {σ : Type} (stat : σ → GoString → Except GoError Time) (k : Nat)
    (text : GoString) (s : σ) (f h : GoString) (t : Time)
    (hts : scanTriple stat k text s = .ok (f, h, t)) :
    (∀ c ∈ f, c ∈ text) ∧ (∀ c ∈ h, c ∈ text) := by
  unfold scanTriple at hts
  split at hts
  · rename_i first fileName h1
    split at hts
    · cases hts
    · split at hts
      · rename_i mode sha1 stage h3
        simp only [Except.ok.injEq, Prod.mk.injEq] at hts
        obtain ⟨rfl, rfl, _⟩ := hts
        obtain ⟨ht, _⟩ := (SplitN_two _ _ first fileName).1 h1
        obtain ⟨hf, _, _⟩ := (SplitN_three _ _ mode sha1 stage).1 h3
        constructor
        · intro c hc
          apply mem_TrimSpace
          rw [ht]
          simp [hc]
        · intro c hc
          apply mem_TrimSpace
          rw [ht, hf]
          simp [hc]
      · cases hts
  · cases hts

theorem digitChar_ne_newline (d : Nat) (h : d < 10) : digitChar d ≠ '\n' := by
  have : ∀ d < 10, digitChar d ≠ '\n' := by decide
  exact this d h

theorem formatBits_newline (fuel : Nat) : ∀ (u : Nat) (acc : GoString),
    '\n' ∉ acc → '\n' ∉ formatBits fuel u acc := by
  induction fuel with
  | zero => intro u acc h; exact h
  | succ fuel ih =>
    intro u acc h
    unfold formatBits
    split
    · rename_i hu
      simp only [List.mem_cons, not_or]
      exact ⟨(digitChar_ne_newline u hu).symm, h⟩
    · apply ih
      simp only [List.mem_cons, not_or]
      exact ⟨(digitChar_ne_newline _ (Nat.mod_lt _ (by decide))).symm, h⟩

theorem FormatInt_newline (n : Int) : '\n' ∉ FormatInt n := by
  unfold FormatInt FormatUint
  split
  · simp only [List.mem_cons, not_or]
    exact ⟨by decide, formatBits_newline _ _ _ (by simp)⟩
  · exact formatBits_newline _ _ _ (by simp)

theorem count_newline_record (f h : GoString) (t : Time) (hf : '\n' ∉ f) (hh : '\n' ∉ h) :
    (formatRecord f h t ++ ['\n']).count '\n' = 1 := by
  unfold formatRecord
  simp only [List.count_append, List.count_cons, List.count_nil,
    List.count_eq_zero_of_not_mem hf, List.count_eq_zero_of_not_mem hh,
    List.count_eq_zero_of_not_mem (FormatInt_newline t.UnixNano)]
  decide

/-- C13: if the create branch ends without fatal exit, leaving `out` in the
destination that held `out0`, then there is one triple per manifest line, in
the order of the lines, each the triple the scan extracts from its line (file
name, hash, mtime of the lookup), and `out` is `out0` followed by one text per
triple, in that order: file name, TAB, hash, TAB, the decimal form of
`mtime.UnixNano()`, newline. When no manifest line contains a newline, the
output has grown by exactly as many newlines as the manifest has lines. -/
theorem mainCreate_output (stat : GoString → GoString → Except GoError Time)
    (write : WriteOracle) (inputScanner : Scanner) (out0 out : GoString)
    (h : mainCreate stat write inputScanner out0 = (out, 0)) :
    ∃ triples : List (GoString × GoString × Time),
      List.Forall₂ (fun text tr => ∃ s k, scanTriple stat k text s = .ok tr)
        inputScanner.lines triples ∧
      out = out0 ++ (triples.map (fun tr =>
        tr.1 ++ '\t' :: tr.2.1 ++ '\t' :: FormatInt tr.2.2.UnixNano ++ ['\n'])).flatten ∧
      ((∀ text ∈ inputScanner.lines, '\n' ∉ text) →
        out.count '\n' = out0.count '\n' + inputScanner.lines.length) := by
  have hloop := mustScanGitLsInput_ok stat _ inputScanner out0 out
    (mainCreate_ok stat write inputScanner out0 out h)
  obtain ⟨triples, hall, hout⟩ := scanLoop_create stat write inputScanner.lines 0 out0 out hloop
  refine ⟨triples, hall, hout, fun hnl => ?_⟩
  rw [hout, List.count_append, List.count_flatten, List.map_map]
  congr 1
  clear hout hloop h
  generalize inputScanner.lines = lines at hall hnl
  induction hall with
  | nil => rfl
  | @cons text tr lines triples h1 _ ih =>
    obtain ⟨s, k, hts⟩ := h1
    obtain ⟨f, hh, t⟩ := tr
    obtain ⟨hf, hhm⟩ := scanTriple_mem stat k text s f hh t hts
    have hnt : '\n' ∉ text := hnl text (List.mem_cons_self _ _)
    simp only [List.map_cons, List.sum_cons, List.length_cons, Function.comp]
    rw [ih (fun x hx => hnl x (List.mem_cons_of_mem _ hx))]
    have := count_newline_record f hh t (fun hc => hnt (hf _ hc)) (fun hc => hnt (hhm _ hc))
    rw [this]
    omega

/-- Instance of C13: a two-line manifest written to an empty destination. -/
theorem mainCreate_output_witness :
    mainCreate (statIn [("a.txt".toList, Unix 0 1), ("dir/b c.txt".toList, Unix 2 5)]) writeOk
      ⟨["100644 aaa 0\ta.txt".toList, "100755 bbb 2\tdir/b c.txt".toList], none⟩ []
      = ("a.txt\taaa\t1\ndir/b c.txt\tbbb\t2000000005\n".toList, 0) ∧
    ("a.txt\taaa\t1\ndir/b c.txt\tbbb\t2000000005\n".toList).count '\n' = 0 + 2 := by
  have h0 : mainCreate (statIn [("a.txt".toList, Unix 0 1), ("dir/b c.txt".toList, Unix 2 5)])
      writeOk ⟨["100644 aaa 0\ta.txt".toList, "100755 bbb 2\tdir/b c.txt".toList], none⟩ []
      = ("a.txt\taaa\t1\ndir/b c.txt\tbbb\t2000000005\n".toList, 0) := by decide
  obtain ⟨_, _, _, hcount⟩ := mainCreate_output _ _ _ _ _ h0
  exact ⟨h0, hcount (by decide)⟩

/-! ## The counters -/

/-- What one call does to the two counters, in both modes and whatever the
operating system answers. -/
theorem restoreCallback_counters (env : Env) (m : Store) (fileName sha1 : GoString)
    (mtime : Time) (verifyOnly : Bool) (s : Sys) :
    (restoreCallback env m fileName sha1 mtime verifyOnly s).1.totalFiles =
      (if eligible m fileName sha1 = true then addUint64 s.totalFiles 1 else s.totalFiles) ∧
    (restoreCallback env m fileName sha1 mtime verifyOnly s).1.nonVerifyingFiles =
      (if needsChange m fileName sha1 mtime = true then addUint64 s.nonVerifyingFiles 1
       else s.nonVerifyingFiles) := by
  cases hg : m.get fileName with
  | none => simp [restoreCallback, eligible, needsChange, hg]
  | some e =>
    by_cases hs : e.sha1 = sha1
    · by_cases ht : mtime.UnixNano = e.mtime.UnixNano
      · simp [restoreCallback, eligible, needsChange, hg, hs, ht]
      · simp only [restoreCallback, eligible, needsChange, hg, hs, ht, ne_eq, not_true_eq_false,
          if_false, not_false_eq_true, if_true, decide_True, decide_not, decide_False,
          Bool.not_false, Bool.and_self]
        cases verifyOnly
        · simp only [Bool.false_eq_true, if_false]
          split <;> simp
        · simp only [if_true]
          split <;> simp
    · simp [restoreCallback, eligible, needsChange, hg, hs]

theorem runCallbacks_counters (env : Env) (m : Store) (verifyOnly : Bool)
    (triples : List Triple) : ∀ s : Sys,
    (runCallbacks env m verifyOnly triples s).totalFiles =
      (fun x => addUint64 x 1)^[(triples.filter (fun tr => eligible m tr.1 tr.2.1)).length]
        s.totalFiles ∧
    (runCallbacks env m verifyOnly triples s).nonVerifyingFiles =
      (fun x => addUint64 x 1)^[(triples.filter
        (fun tr => needsChange m tr.1 tr.2.1 tr.2.2)).length] s.nonVerifyingFiles := by
  induction triples with
  | nil => intro s; exact ⟨rfl, rfl⟩
  | cons tr rest ih =>
    intro s
    obtain ⟨h1, h2⟩ := restoreCallback_counters env m tr.1 tr.2.1 tr.2.2 verifyOnly s
    obtain ⟨i1, i2⟩ := ih (restoreCallback env m tr.1 tr.2.1 tr.2.2 verifyOnly s).1
    simp only [runCallbacks, List.filter_cons]
    constructor
    · rw [i1, h1]
      split <;> simp [Function.iterate_succ_apply]
    · rw [i2, h2]
      split <;> simp [Function.iterate_succ_apply]

/-- C14: the counters after the workers of a list of triples have run do not
depend on the order in which the triples are processed: for two lists that are
permutations of each other (and whatever the clock and the results of
`os.Chtimes` are in the two runs), `totalFiles` and `nonVerifyingFiles` end
equal. -/
theorem runCallbacks_perm (env1 env2 : Env) (m : Store) (verifyOnly : Bool)
    (triples1 triples2 : List Triple) (s : Sys) (hperm : triples1.Perm triples2) :
    (runCallbacks env1 m verifyOnly triples1 s).totalFiles
      = (runCallbacks env2 m verifyOnly triples2 s).totalFiles ∧
    (runCallbacks env1 m verifyOnly triples1 s).nonVerifyingFiles
      = (runCallbacks env2 m verifyOnly triples2 s).nonVerifyingFiles := by
  obtain ⟨a1, a2⟩ := runCallbacks_counters env1 m verifyOnly triples1 s
  obtain ⟨b1, b2⟩ := runCallbacks_counters env2 m verifyOnly triples2 s
  rw [a1, a2, b1, b2, (hperm.filter _).length_eq, (hperm.filter _).length_eq]
  exact ⟨rfl, rfl⟩

/-- Instance of C14: three triples (one matching, one needing a change, one
with another hash) processed in two different orders. -/
theorem runCallbacks_perm_witness :
    (runCallbacks envOk storeA false
        [("a.txt".toList, "hash1".toList, Unix 0 1000000000),
         ("a.txt".toList, "hash1".toList, Unix 0 5),
         ("a.txt".toList, "hash2".toList, Unix 0 5)] (Sys.init false)).totalFiles
      = (runCallbacks envDenied storeA false
        [("a.txt".toList, "hash2".toList, Unix 0 5),
         ("a.txt".toList, "hash1".toList, Unix 0 5),
         ("a.txt".toList, "hash1".toList, Unix 0 1000000000)] (Sys.init false)).totalFiles ∧
    (runCallbacks envOk storeA false
        [("a.txt".toList, "hash1".toList, Unix 0 1000000000),
         ("a.txt".toList, "hash1".toList, Unix 0 5),
         ("a.txt".toList, "hash2".toList, Unix 0 5)] (Sys.init false)).nonVerifyingFiles
      = (runCallbacks envDenied storeA false
        [("a.txt".toList, "hash2".toList, Unix 0 5),
         ("a.txt".toList, "hash1".toList, Unix 0 5),
         ("a.txt".toList, "hash1".toList, Unix 0 1000000000)]
          (Sys.init false)).nonVerifyingFiles :=
  runCallbacks_perm envOk envDenied storeA false _ _ (Sys.init false) (by decide)

/-! ## The store is only read -/

/-- The map-threading form of the callback does to the rest of the state what
`restoreCallback` does, and hands the map back as it got it. -/
theorem restoreCallbackStore_eq (env : Env) (fileName sha1 : GoString) (mtime : Time)
    (verifyOnly : Bool) (m : Store) (s : Sys) :
    restoreCallbackStore env fileName sha1 mtime verifyOnly (m, s) =
      ((m, (restoreCallback env m fileName sha1 mtime verifyOnly s).1),
        (restoreCallback env m fileName sha1 mtime verifyOnly s).2) := by
  simp only [restoreCallbackStore, restoreCallback]
  cases hg : m.get fileName with
  | none => rfl
  | some e =>
    simp only []
    split_ifs <;> rfl

/-- C16: `restoreCallback` hands back the map it was given, whatever the
triple, the mode and the state (no entry added, removed or changed, in
particular none deleted when the hashes differ); hence after a whole scan that
runs it on every record, whether the scan ends normally or in a fatal exit,
the store is the store that was loaded. -/
theorem restoreCallback_store_unchanged (env : Env) (m : Store) (fileName sha1 : GoString)
    (mtime : Time) (verifyOnly : Bool) (s : Sys)
    (stat : Store × Sys → GoString → Except GoError Time) (inputScanner : Scanner) :
    (restoreCallbackStore env fileName sha1 mtime verifyOnly (m, s)).1.1 = m ∧
    (mustScanGitLsInput stat inputScanner
      (fun _ f h t st => restoreCallbackStore env f h t verifyOnly st) (m, s)).1.1 = m := by
  constructor
  · rw [restoreCallbackStore_eq]
  · exact mustScanGitLsInput_frame stat
      (fun _ f h t st => restoreCallbackStore env f h t verifyOnly st) Prod.fst
      (fun _ f h t st => by
        obtain ⟨m1, s1⟩ := st
        simp only [restoreCallbackStore_eq]) inputScanner (m, s)

/-! ## The counter invariant -/

theorem iterate_addUint64 (n x : Nat) (hx : x < 2 ^ 64) :
    (fun y => addUint64 y 1)^[n] x = (x + n) % 2 ^ 64 := by
  induction n with
  | zero =>
    simp only [Function.iterate_zero, id_eq, Nat.add_zero]
    exact (Nat.mod_eq_of_lt hx).symm
  | succ n ih =>
    rw [Function.iterate_succ_apply', ih]
    unfold addUint64
    rw [Nat.add_mod, Nat.mod_mod, ← Nat.add_mod]
    rfl

theorem needsChange_eligible (m : Store) (f h : GoString) (t : Time)
    (hn : needsChange m f h t = true) : eligible m f h = true := by
  unfold needsChange at hn
  unfold eligible
  cases hg : m.get f with
  | none => rw [hg] at hn; cases hn
  | some e =>
    rw [hg] at hn
    simp only [Bool.and_eq_true] at hn
    exact hn.1

theorem applyCalls_append (env : Env) (pre post : List Call) : ∀ s : Sys,
    applyCalls env (pre ++ post) s = applyCalls env post (applyCalls env pre s) := by
  induction pre with
  | nil => intro s; rfl
  | cons c pre ih =>
    intro s
    simp only [List.cons_append, applyCalls]
    exact ih _

theorem applyCalls_counters (env : Env) (calls : List Call) : ∀ s : Sys,
    (applyCalls env calls s).totalFiles =
      (fun x => addUint64 x 1)^[(calls.filter
        (fun c => eligible c.m c.fileName c.sha1)).length] s.totalFiles ∧
    (applyCalls env calls s).nonVerifyingFiles =
      (fun x => addUint64 x 1)^[(calls.filter
        (fun c => needsChange c.m c.fileName c.sha1 c.mtime)).length] s.nonVerifyingFiles := by
  induction calls with
  | nil => intro s; exact ⟨rfl, rfl⟩
  | cons c rest ih =>
    intro s
    obtain ⟨h1, h2⟩ := restoreCallback_counters env c.m c.fileName c.sha1 c.mtime c.verifyOnly s
    obtain ⟨i1, i2⟩ := ih (restoreCallback env c.m c.fileName c.sha1 c.mtime c.verifyOnly s).1
    simp only [applyCalls, List.filter_cons]
    constructor
    · rw [i1, h1]
      split <;> simp [Function.iterate_succ_apply]
    · rw [i2, h2]
      split <;> simp [Function.iterate_succ_apply]

/-- From counters at zero, the counters after a sequence of calls are the
number of eligible calls and the number of calls needing a change, as
`uint64` values. -/
theorem applyCalls_init (env : Env) (calls : List Call) (verbose : Bool) :
    (applyCalls env calls (Sys.init verbose)).totalFiles =
      (calls.filter (fun c => eligible c.m c.fileName c.sha1)).length % 2 ^ 64 ∧
    (applyCalls env calls (Sys.init verbose)).nonVerifyingFiles =
      (calls.filter (fun c => needsChange c.m c.fileName c.sha1 c.mtime)).length % 2 ^ 64 := by
  obtain ⟨h1, h2⟩ := applyCalls_counters env calls (Sys.init verbose)
  rw [h1, h2, iterate_addUint64 _ _ (by simp [Sys.init]),
    iterate_addUint64 _ _ (by simp [Sys.init])]
  simp [Sys.init]

theorem filter_needs_le (calls : List Call) :
    (calls.filter (fun c => needsChange c.m c.fileName c.sha1 c.mtime)).length ≤
      (calls.filter (fun c => eligible c.m c.fileName c.sha1)).length := by
  induction calls with
  | nil => simp
  | cons c rest ih =>
    simp only [List.filter_cons]
    by_cases hn : needsChange c.m c.fileName c.sha1 c.mtime = true
    · rw [if_pos hn, if_pos (needsChange_eligible _ _ _ _ hn)]
      simp only [List.length_cons]
      omega
    · rw [if_neg hn]
      split
      · simp only [List.length_cons]; omega
      · exact ih

theorem filter_replicate_of_true (p : Call → Bool) (c : Call) (n : Nat) (h : p c = true) :
    ((List.replicate n c).filter p).length = n := by
  rw [List.filter_eq_self.2 (fun x hx => by rw [List.eq_of_mem_replicate hx]; exact h),
    List.length_replicate]

theorem filter_replicate_of_false (p : Call → Bool) (c : Call) (n : Nat) (h : p c = false) :
    ((List.replicate n c).filter p).length = 0 := by
  rw [List.filter_eq_nil_iff.2 (fun x hx => by rw [List.eq_of_mem_replicate hx, h]; simp)]
  rfl

/-- Counterexample to C19 as stated: one verify call that needs a change
followed by verify calls that match. After 2^64 - 1 calls `totalFiles` is
2^64 - 1; after one more call it has wrapped to 0, below its previous value and
below `nonVerifyingFiles`, which is 1; the subtraction of the verbose summary
then gives 2^64 - 1. -/
theorem counters_wrap_counterexample :
    (applyCalls envOk (callNeedsChange :: List.replicate 18446744073709551614 callMatches)
        (Sys.init true)).totalFiles = 18446744073709551615 ∧
    (applyCalls envOk (callNeedsChange :: List.replicate 18446744073709551615 callMatches)
        (Sys.init true)).totalFiles = 0 ∧
    (applyCalls envOk (callNeedsChange :: List.replicate 18446744073709551615 callMatches)
        (Sys.init true)).nonVerifyingFiles = 1 ∧
    ((applyCalls envOk (callNeedsChange :: List.replicate 18446744073709551615 callMatches)
        (Sys.init true)).totalFiles + 2 ^ 64 -
      (applyCalls envOk (callNeedsChange :: List.replicate 18446744073709551615 callMatches)
        (Sys.init true)).nonVerifyingFiles) % 2 ^ 64 = 18446744073709551615 := by
  have he1 : eligible callNeedsChange.m callNeedsChange.fileName callNeedsChange.sha1 = true := by
    decide
  have he2 : eligible callMatches.m callMatches.fileName callMatches.sha1 = true := by decide
  have hn1 : needsChange callNeedsChange.m callNeedsChange.fileName callNeedsChange.sha1
      callNeedsChange.mtime = true := by decide
  have hn2 : needsChange callMatches.m callMatches.fileName callMatches.sha1
      callMatches.mtime = false := by decide
  have key : ∀ n : Nat,
      (applyCalls envOk (callNeedsChange :: List.replicate n callMatches)
        (Sys.init true)).totalFiles = (n + 1) % 2 ^ 64 ∧
      (applyCalls envOk (callNeedsChange :: List.replicate n callMatches)
        (Sys.init true)).nonVerifyingFiles = 1 := by
    intro n
    obtain ⟨h1, h2⟩ := applyCalls_init envOk (callNeedsChange :: List.replicate n callMatches) true
    rw [h1, h2]
    simp only [List.filter_cons, he1, hn1, if_true, List.length_cons]
    rw [filter_replicate_of_true _ callMatches n he2,
      filter_replicate_of_false _ callMatches n hn2]
    exact ⟨rfl, rfl⟩
  obtain ⟨a1, _⟩ := key 18446744073709551614
  obtain ⟨b1, b2⟩ := key 18446744073709551615
  rw [a1, b1, b2]
  exact ⟨by norm_num, by norm_num, rfl, by norm_num⟩

/-- C19 (amended): from both counters at zero, after any sequence of fewer than
2^64 calls of `restoreCallback` (any stores, triples and modes, any results of
`os.Chtimes`), `nonVerifyingFiles` is at most `totalFiles`, so the `uint64`
subtraction of the verbose summary is the true difference; and at every
earlier point of the sequence both counters were at most what they are at the
end, and `nonVerifyingFiles` was at most `totalFiles` there too. -/
theorem counters_invariant (env : Env) (calls : List Call) (verbose : Bool)
    (hlen : calls.length < 2 ^ 64) :
    (applyCalls env calls (Sys.init verbose)).nonVerifyingFiles
      ≤ (applyCalls env calls (Sys.init verbose)).totalFiles ∧
    ((applyCalls env calls (Sys.init verbose)).totalFiles + 2 ^ 64 -
        (applyCalls env calls (Sys.init verbose)).nonVerifyingFiles) % 2 ^ 64
      = (applyCalls env calls (Sys.init verbose)).totalFiles -
        (applyCalls env calls (Sys.init verbose)).nonVerifyingFiles ∧
    (∀ pre post, calls = pre ++ post →
      (applyCalls env pre (Sys.init verbose)).totalFiles
        ≤ (applyCalls env calls (Sys.init verbose)).totalFiles ∧
      (applyCalls env pre (Sys.init verbose)).nonVerifyingFiles
        ≤ (applyCalls env calls (Sys.init verbose)).nonVerifyingFiles ∧
      (applyCalls env pre (Sys.init verbose)).nonVerifyingFiles
        ≤ (applyCalls env pre (Sys.init verbose)).totalFiles) := by
  have closed : ∀ l : List Call, l.length < 2 ^ 64 →
      (applyCalls env l (Sys.init verbose)).totalFiles =
        (l.filter (fun c => eligible c.m c.fileName c.sha1)).length ∧
      (applyCalls env l (Sys.init verbose)).nonVerifyingFiles =
        (l.filter (fun c => needsChange c.m c.fileName c.sha1 c.mtime)).length := by
    intro l hl
    obtain ⟨h1, h2⟩ := applyCalls_init env l verbose
    have e1 := List.length_filter_le (fun c : Call => eligible c.m c.fileName c.sha1) l
    have e2 := List.length_filter_le
      (fun c : Call => needsChange c.m c.fileName c.sha1 c.mtime) l
    rw [h1, h2, Nat.mod_eq_of_lt (by omega), Nat.mod_eq_of_lt (by omega)]
    exact ⟨rfl, rfl⟩
  obtain ⟨t, n⟩ := closed calls hlen
  have hle := filter_needs_le calls
  have hbound := List.length_filter_le (fun c : Call => eligible c.m c.fileName c.sha1) calls
  refine ⟨by rw [t, n]; exact hle, ?_, ?_⟩
  · rw [t, n]
    have : (calls.filter (fun c => eligible c.m c.fileName c.sha1)).length + 2 ^ 64 -
        (calls.filter (fun c => needsChange c.m c.fileName c.sha1 c.mtime)).length
        = ((calls.filter (fun c => eligible c.m c.fileName c.sha1)).length -
          (calls.filter (fun c => needsChange c.m c.fileName c.sha1 c.mtime)).length) + 2 ^ 64 := by
      omega
    rw [this, Nat.add_mod_right, Nat.mod_eq_of_lt (by omega)]
  · intro pre post hsplit
    have hpl : pre.length < 2 ^ 64 := by
      rw [hsplit, List.length_append] at hlen
      omega
    obtain ⟨tp, np⟩ := closed pre hpl
    rw [t, n, tp, np, hsplit, List.filter_append, List.filter_append, List.length_append,
      List.length_append]
    exact ⟨by omega, by omega, filter_needs_le pre⟩

/-- Instance of C19 (amended): a verify call that needs a change, a verify call
that matches, and a restore call whose `os.Chtimes` fails. -/
theorem counters_invariant_witness :
    (applyCalls envDenied [callNeedsChange, callMatches, callRestore]
        (Sys.init false)).nonVerifyingFiles
      ≤ (applyCalls envDenied [callNeedsChange, callMatches, callRestore]
        (Sys.init false)).totalFiles :=
  (counters_invariant envDenied [callNeedsChange, callMatches, callRestore] false
    (by decide)).1

/-! ## The worker pool -/

theorem countP_set_of_getElem? (q : Phase → Bool) (l : List Phase) :
    ∀ (i : Nat) (a b : Phase), l[i]? = some a →
    (l.set i b).countP q + (if q a = true then 1 else 0)
      = l.countP q + (if q b = true then 1 else 0) := by
  induction l with
  | nil => intro i a b h; simp at h
  | cons x l ih =>
    intro i a b h
    cases i with
    | zero =>
      simp only [List.getElem?_cons_zero, Option.some.injEq] at h
      subst h
      simp only [List.set_cons_zero, List.countP_cons]
      omega
    | succ i =>
      simp only [List.getElem?_cons_succ] at h
      have := ih i a b h
      simp only [List.set_cons_succ, List.countP_cons]
      omega

theorem Pool.inFlight_le_held (p : Pool) : p.inFlight ≤ p.held := by
  unfold Pool.inFlight Pool.held
  apply List.countP_mono_left
  intro ph _ h
  cases ph <;> first | rfl | cases h

theorem holds_set (l : List Phase) (i : Nat) (a b : Phase) (h : l[i]? = some a) :
    (l.set i b).countP Phase.holds + (if a.holds = true then 1 else 0)
      = l.countP Phase.holds + (if b.holds = true then 1 else 0) :=
  countP_set_of_getElem? Phase.holds l i a b h

/-- One step keeps the capacity and the sum of the values in the channel and
the slots held. -/
theorem Pool.step_invariant (p p1 : Pool) (a : Action) (h : p.step a = some p1) :
    p1.K = p.K ∧ p1.free + p1.held = p.free + p.held := by
  unfold Pool.step at h
  split at h
  · cases h
  · cases a with
    | spawn =>
      simp only [Option.some.injEq] at h
      subst h
      refine ⟨rfl, ?_⟩
      simp only [Pool.held, List.countP_append, List.countP_cons, List.countP_nil]
      rfl
    | acquire i =>
      simp only [] at h
      split at h
      · rename_i hc
        simp only [Option.some.injEq] at h
        subst h
        refine ⟨rfl, ?_⟩
        have := holds_set p.workers i Phase.blocked Phase.inFlight hc.1
        have h1 : Phase.blocked.holds = false := rfl
        have h2 : Phase.inFlight.holds = true := rfl
        rw [h1, h2] at this
        simp only [Bool.false_eq_true, if_false, if_true, Nat.add_zero] at this
        show p.free - 1 + (p.workers.set i Phase.inFlight).countP Phase.holds
          = p.free + p.workers.countP Phase.holds
        have := hc.2
        omega
      · cases h
    | finish i ok =>
      simp only [] at h
      split at h
      · rename_i hc
        cases ok with
        | true =>
          simp only [if_true, Option.some.injEq] at h
          subst h
          refine ⟨rfl, ?_⟩
          have := holds_set p.workers i Phase.inFlight Phase.returning hc
          have h1 : Phase.inFlight.holds = true := rfl
          have h2 : Phase.returning.holds = true := rfl
          rw [h1, h2] at this
          simp only [if_true] at this
          show p.free + (p.workers.set i Phase.returning).countP Phase.holds
            = p.free + p.workers.countP Phase.holds
          omega
        | false =>
          simp only [Bool.false_eq_true, if_false, Option.some.injEq] at h
          subst h
          exact ⟨rfl, rfl⟩
      · cases h
    | release i =>
      simp only [] at h
      split at h
      · rename_i hc
        simp only [Option.some.injEq] at h
        subst h
        refine ⟨rfl, ?_⟩
        have := holds_set p.workers i Phase.returning Phase.finished hc.1
        have h1 : Phase.returning.holds = true := rfl
        have h2 : Phase.finished.holds = false := rfl
        rw [h1, h2] at this
        simp only [Bool.false_eq_true, if_false, if_true, Nat.add_zero] at this
        show p.free + 1 + (p.workers.set i Phase.finished).countP Phase.holds
          = p.free + p.workers.countP Phase.holds
        omega
      · cases h

theorem Pool.run_invariant (actions : List Action) : ∀ (p p1 : Pool),
    p.run actions = some p1 → p1.K = p.K ∧ p1.free + p1.held = p.free + p.held := by
  induction actions with
  | nil =>
    intro p p1 h
    simp only [Pool.run, Option.some.injEq] at h
    subst h
    exact ⟨rfl, rfl⟩
  | cons a rest ih =>
    intro p p1 h
    simp only [Pool.run] at h
    cases hs : p.step a with
    | none => rw [hs] at h; cases h
    | some p2 =>
      rw [hs] at h
      obtain ⟨k1, e1⟩ := Pool.step_invariant p p2 a hs
      obtain ⟨k2, e2⟩ := ih p2 p1 h
      exact ⟨k2.trans k1, e2.trans e1⟩

theorem holds_pos (l : List Phase) : ∀ (i : Nat) (a : Phase), l[i]? = some a →
    a.holds = true → 0 < l.countP Phase.holds := by
  induction l with
  | nil => intro i a h; simp at h
  | cons x l ih =>
    intro i a h ha
    cases i with
    | zero =>
      simp only [List.getElem?_cons_zero, Option.some.injEq] at h
      subst h
      simp [List.countP_cons, ha]
    | succ i =>
      simp only [List.getElem?_cons_succ] at h
      have := ih i a h ha
      simp only [List.countP_cons]
      omega

/-- C15: for every capacity K >= 1 and every sequence of steps the pool can
take from its initial state (channel filled with K values, no worker), hence
at every point of every run: the slots held plus the values in the channel are
K, every worker inside `restoreCallback` holds a slot, so at most K workers
are inside `restoreCallback`; and a worker that has to send its value back
always finds room in the channel. -/
theorem pool_bound (K : Nat) (_hK : 1 ≤ K) (actions : List Action) (p : Pool)
    (h : (Pool.init K).run actions = some p) :
    p.K = K ∧ p.free + p.held = K ∧ p.inFlight ≤ p.held ∧ p.inFlight ≤ K ∧
    (∀ i : Nat, p.workers[i]? = some Phase.returning → p.free < K) := by
  obtain ⟨hk, hsum⟩ := Pool.run_invariant actions (Pool.init K) p h
  have hinit : (Pool.init K).free + (Pool.init K).held = K := by
    simp [Pool.init, Pool.held]
  rw [hinit] at hsum
  have hle := Pool.inFlight_le_held p
  refine ⟨hk, hsum, hle, by omega, fun i hi => ?_⟩
  have hpos := holds_pos p.workers i Phase.returning hi rfl
  have : 0 < p.held := hpos
  omega

/-- Instance of C15 with K = 2: three workers are started, two receive a value,
the first comes back and sends its value, the third receives it; two workers
are inside `restoreCallback` and the channel is empty. -/
theorem pool_bound_witness :
    (Pool.init 2).run [Action.spawn, Action.spawn, Action.spawn, Action.acquire 0,
        Action.acquire 1, Action.finish 0 true, Action.release 0, Action.acquire 2]
      = some { K := 2, free := 0,
               workers := [Phase.finished, Phase.inFlight, Phase.inFlight], exited := false } ∧
    Pool.inFlight { K := 2, free := 0,
                    workers := [Phase.finished, Phase.inFlight, Phase.inFlight],
                    exited := false } ≤ 2 :=
  ⟨by decide,
   (pool_bound 2 (by decide) [Action.spawn, Action.spawn, Action.spawn, Action.acquire 0,
      Action.acquire 1, Action.finish 0 true, Action.release 0, Action.acquire 2]
      { K := 2, free := 0, workers := [Phase.finished, Phase.inFlight, Phase.inFlight],
        exited := false } (by decide)).2.2.2.1⟩

/-! ## Restoring twice -/

end Mtool
